import Mathlib

/-!
Verification of the view-buffer synthesis core of the EDF browser in this
repository: `setup_viewbuf` (`viewbuf.cpp`) and the Z-ratio spectral filter
(`filt/z_ratio_filter.c`).

Modelling conventions:
* C `double` arithmetic is modelled by exact rational arithmetic (`ℚ`);
* C integer division `/` and remainder `%` on signed integers truncate
  toward zero and are modelled by `Int.tdiv` / `Int.tmod`;
* a C cast of a `double` to an integer type truncates toward zero and is
  modelled by `ctrunc`;
* files are byte sequences with a size; `fread(p, n, 1, f)` succeeds
  (returns 1) exactly when the full `n` bytes are available;
* the shared view buffer is a byte-indexed function `ℤ → ℤ`, built by
  replaying the write operations (memset / fread) that `setup_viewbuf`
  performs, starting from an arbitrary "malloc garbage" function.
-/

namespace ViewBuf

/-- `TIME_FIXP_SCALING`: one second = 10,000,000 ticks. -/
def TIME_FIXP_SCALING : ℤ := 10000000

/-- C cast of a `double` to an integer type: truncation toward zero (for a
rational, T-division of numerator by denominator). -/
def ctrunc (q : ℚ) : ℤ := q.num.tdiv q.den

/-! ### Warm-up ("prefilter") duration, viewbuf.cpp lines 64-186 -/

/-- viewbuf.cpp lines 70-76: a composition whose only stateful filter is a
single first-order filter of cutoff frequency `f` gets
`pre_time = 1.0 / cutoff_frequency` (seconds). -/
def pre_time_first_order (f : ℚ) : ℚ := 1 / f

/-- viewbuf.cpp lines 179-184:
`prefiltertime = (long long)(pre_time * TIME_FIXP_SCALING)` — the C cast
truncates — then clamped: if it exceeds the view time it becomes the view
time, and if that is negative it becomes 0. -/
def prefiltertime (pre_time : ℚ) (viewtime : ℤ) : ℤ :=
  let p := ctrunc (pre_time * (TIME_FIXP_SCALING : ℚ))
  if viewtime < p then (if viewtime < 0 then 0 else viewtime) else p

/-- The spec's wording for claim C4 (§8): warm-up duration equals
`ceil(1/f * ticks_per_second)` ticks, with the same clamping.  Stated here
only to be compared against the source-derived `prefiltertime`. -/
def prefiltertime_spec_ceil (f : ℚ) (viewtime : ℤ) : ℤ :=
  let p := ⌈(1 / f) * (TIME_FIXP_SCALING : ℚ)⌉
  if viewtime < p then (if viewtime < 0 then 0 else viewtime) else p

/-! ### Z-ratio reset alignment, viewbuf.cpp lines 287-289 and 349-371 -/

/-- viewbuf.cpp lines 287-289: the start of the warm-up window, rounded down
to a whole record boundary by C integer division. -/
def prefilter_starttime (viewtime pft ldrd : ℤ) : ℤ :=
  ((viewtime - pft).tdiv ldrd) * ldrd

/-- viewbuf.cpp lines 360-366 (same shape as lines 199-204): conversion of a
tick offset into a sample count — whole records contribute `smp_per_record`
samples each, and the partial record at the right edge is interpolated
proportionally (C `(int)` cast of a `double` product). -/
def ticks_to_sample_index (t ldrd spr : ℤ) : ℤ :=
  (t.tdiv ldrd) * spr + ctrunc (((t.tmod ldrd : ℤ) : ℚ) / (ldrd : ℚ) * (spr : ℚ))

/-- viewbuf.cpp lines 349-371: the warm-up sample index at which the Z-ratio
filter is reset.  `l = prefilter_starttime % (TIME_FIXP_SCALING * 2)`; when
nonzero the reset happens `TIME_FIXP_SCALING * 2 - l` ticks into the warm-up
window, converted to a sample index; when zero it happens at sample 0. -/
def prefilter_reset_sample (starttime ldrd spr : ℤ) : ℤ :=
  let l := starttime.tmod (TIME_FIXP_SCALING * 2)
  if l ≠ 0 then ticks_to_sample_index (TIME_FIXP_SCALING * 2 - l) ldrd spr
  else 0

/-! ### The Z-ratio filter, filt/z_ratio_filter.c -/

/-- Size in bytes of a C `double`; `memcpy` lengths below are byte counts. -/
def SIZEOF_DOUBLE : ℕ := 8

/-- State of the Z-ratio filter (`zratiofiltset_t`).  The FFT input ring
`fft_inputbuf` (an array of `dftblocksize` doubles) is modelled as a
function from index to value, together with its backup copy and the backup
scalars used by `save_buf` / `restore_buf`. -/
structure Zratiofiltset where
  dftblocksize : ℕ
  bitvalue : ℚ
  fft_inputbuf : ℕ → ℚ
  fft_inputbuf_bu : ℕ → ℚ
  smpls_in_inputbuf : ℕ
  smpls_in_inputbuf_bu : ℕ
  zratio_value : ℚ
  zratio_value_bu : ℚ

/-- z_ratio_filter.c lines 133-195 (`run_zratio_filter`): append the sample
to the input ring; once `dftblocksize` samples have accumulated, recompute
`zratio_value` from the whole block and restart the counter; always return
`zratio_value / bitvalue`.  The block computation (kiss FFT, an external
library, followed by the band-power ratio of lines 151-191) is abstracted by
the parameter `spectral`; every property proved below holds for all
`spectral`, hence for the FFT-based one. -/
def run_zratio_filter (spectral : (ℕ → ℚ) → ℚ) (new_sample : ℚ)
    (s : Zratiofiltset) : ℚ × Zratiofiltset :=
  let buf : ℕ → ℚ :=
    fun j => if j = s.smpls_in_inputbuf then new_sample else s.fft_inputbuf j
  if s.dftblocksize ≤ s.smpls_in_inputbuf + 1 then
    let z := spectral buf
    (z / s.bitvalue,
     { s with fft_inputbuf := buf, smpls_in_inputbuf := 0, zratio_value := z })
  else
    (s.zratio_value / s.bitvalue,
     { s with fft_inputbuf := buf, smpls_in_inputbuf := s.smpls_in_inputbuf + 1 })

/-- z_ratio_filter.c lines 198-203 (`zratio_filter_save_buf`).  The source
copies the scalars and then
`memcpy(fft_inputbuf_bu, fft_inputbuf, settings->dftblocksize)` — a length
of `dftblocksize` BYTES, i.e. only the first `dftblocksize / 8` complete
`double` elements of the ring; the remaining backup elements keep their old
contents. -/
def zratio_filter_save_buf (s : Zratiofiltset) : Zratiofiltset :=
  { s with
    smpls_in_inputbuf_bu := s.smpls_in_inputbuf
    zratio_value_bu := s.zratio_value
    fft_inputbuf_bu := fun j =>
      if j < s.dftblocksize / SIZEOF_DOUBLE then s.fft_inputbuf j
      else s.fft_inputbuf_bu j }

/-- z_ratio_filter.c lines 206-211 (`zratio_filter_restore_buf`): the exact
mirror of `save_buf`, with the same `dftblocksize`-byte `memcpy` length. -/
def zratio_filter_restore_buf (s : Zratiofiltset) : Zratiofiltset :=
  { s with
    smpls_in_inputbuf := s.smpls_in_inputbuf_bu
    zratio_value := s.zratio_value_bu
    fft_inputbuf := fun j =>
      if j < s.dftblocksize / SIZEOF_DOUBLE then s.fft_inputbuf_bu j
      else s.fft_inputbuf j }

/-- z_ratio_filter.c lines 225-229 (`reset_zratio_filter`). -/
def reset_zratio_filter (s : Zratiofiltset) : Zratiofiltset :=
  { s with smpls_in_inputbuf := 0, zratio_value := 0 }

/-- Feed a list of samples through `run_zratio_filter`, collecting the
returned values and the final state (the shape of the warm-up replay loop of
viewbuf.cpp lines 393-508 for a Z-ratio composition). -/
def run_zratio_filter_list (spectral : (ℕ → ℚ) → ℚ) (s : Zratiofiltset) :
    List ℚ → List ℚ × Zratiofiltset
  | [] => ([], s)
  | x :: xs =>
    let p := run_zratio_filter spectral x s
    let q := run_zratio_filter_list spectral p.2 xs
    (p.1 :: q.1, q.2)

/-! Concrete Z-ratio instance exhibiting the `save_buf` length bug (claim C5).
`dftblocksize = 200` is a legal constructed value
(`smp_per_record = 100`, one-second records: `200 ≥ ZRATIO_EPOCH_LEN * 100`,
sample frequency 100 Hz, `freqstep = 0.5 ≤ 1`). -/

/-- Pre-read Z-ratio state: 30 samples already in the ring, ring element 25
holds 1, everything else 0. -/
def zrC5start : Zratiofiltset :=
  { dftblocksize := 200
    bitvalue := 1
    fft_inputbuf := fun j => if j = 25 then 1 else 0
    fft_inputbuf_bu := fun _ => 0
    smpls_in_inputbuf := 30
    smpls_in_inputbuf_bu := 0
    zratio_value := 0
    zratio_value_bu := 0 }

/-- The snapshot taken before the read: `save_buf` applied to `zrC5start`. -/
def zrC5snap : Zratiofiltset := zratio_filter_save_buf zrC5start

/-- The record range that is read: 196 samples, all equal to 2. -/
def zrC5samples : List ℚ := List.replicate 196 2

/-- State after the first pass over the 196 samples (the block boundary
fires after 170 of them, then 26 more overwrite ring elements 0-25). -/
def zrC5afterPass1 : Zratiofiltset :=
  (run_zratio_filter_list (fun _ => 0) zrC5snap zrC5samples).2

/-- State after `reset()` + `restore_state()` back to the snapshot. -/
def zrC5restored : Zratiofiltset :=
  zratio_filter_restore_buf (reset_zratio_filter zrC5afterPass1)

/-- Ring contents at the moment the block boundary fires (i.e. the input the
spectral estimator consumes), after feeding the first 170 of the samples. -/
def zrC5boundaryBuf1 : ℕ → ℚ :=
  (run_zratio_filter_list (fun _ => 0) zrC5snap (List.replicate 170 2)).2.fft_inputbuf

/-- Same, for the second pass (starting from the restored state). -/
def zrC5boundaryBuf2 : ℕ → ℚ :=
  (run_zratio_filter_list (fun _ => 0) zrC5restored (List.replicate 170 2)).2.fft_inputbuf

/-! ### ECG filter reset in the warm-up loop, viewbuf.cpp lines 489-497 -/

/-- viewbuf.cpp lines 393-508, specialised to the ECG branch (lines
489-497): the warm-up loop feeds sample `s` to the ECG filter after
resetting it exactly when `s == 0`.  The beat detector itself
(`run_ecg_filter` / `reset_ecg_filter`) is outside the sources provided
here, so the loop is stated for an arbitrary filter step `run` on an
arbitrary state type `σ` with reset state `resetSt`; the theorem below holds
for every such step, hence for the actual ECG filter. -/
def ecg_warmup_loop {σ : Type} (run : σ → ℚ → σ) (resetSt : σ) :
    σ → ℕ → List ℚ → σ
  | st, _, [] => st
  | st, s, x :: xs =>
      ecg_warmup_loop run resetSt (run (if s = 0 then resetSt else st) x) (s + 1) xs

/-! ### The visible-window materialization, viewbuf.cpp lines 564-839

The per-frame pass that plans the buffer layout (lines 566-649), enforces
the platform capacity ceiling (lines 651-696), and performs the reads and
zero-fills (lines 698-839).  Buffer writes are recorded as a list of write
operations (memset / fread) replayed over an arbitrary "malloc garbage"
initial buffer. -/

/-- The fields of one open recording's header (`edfhdrblck_t`) that
`setup_viewbuf` consults; `file_hdl` identifies the open file handle and
`smp_per_record` is `edfparam_0->smp_per_record` of the composition's first
constituent signal. -/
structure EdfHdr where
  file_hdl : ℕ
  viewtime : ℤ
  long_data_record_duration : ℤ
  recordsize : ℤ
  datarecords : ℤ
  hdrsize : ℤ
  smp_per_record : ℤ
deriving DecidableEq

/-- A signal composition: its recording header plus the presence flags and
counts of its stateful filter stages (used only to decide `hasprefilter`,
viewbuf.cpp lines 64-169 / 389-391). -/
structure SignalComp where
  edfhdr : EdfHdr
  filter_cnt : ℕ
  spike_filter : Bool
  ravg_filter_cnt : ℕ
  fidfilter_cnt : ℕ
  fir_filter_cnt : ℕ
  plif_ecg_filter : Bool
  plif_eeg_filter : Bool
  ecg_filter : Bool
  zratio_filter : Bool
deriving DecidableEq

/-- Whether a composition has any stateful filter stage — the disjunction
tested at viewbuf.cpp lines 66-168 (and again at lines 389-391). -/
def SignalComp.stateful (c : SignalComp) : Bool :=
  (c.filter_cnt != 0) || c.spike_filter || (c.ravg_filter_cnt != 0) ||
  (c.fidfilter_cnt != 0) || (c.fir_filter_cnt != 0) || c.plif_ecg_filter ||
  c.plif_eeg_filter || c.ecg_filter || c.zratio_filter

/-- `hasprefilter` of viewbuf.cpp lines 64-169: true when any composition
is stateful. -/
def hasStatefulFilters (cs : List SignalComp) : Bool :=
  cs.any SignalComp.stateful

/-- viewbuf.cpp lines 568-569: number of whole records needed to cover the
visible page. -/
def records_in_viewbuf (pagetime : ℤ) (h : EdfHdr) : ℤ :=
  if 0 ≤ h.viewtime then
    (pagetime + h.viewtime.tmod h.long_data_record_duration).tdiv
      h.long_data_record_duration + 1
  else
    (pagetime + (-h.viewtime).tmod h.long_data_record_duration).tdiv
      h.long_data_record_duration + 1

/-- viewbuf.cpp line 576: samples of the first constituent signal that fit
on screen. -/
def samples_on_screen (pagetime : ℤ) (h : EdfHdr) : ℤ :=
  ctrunc ((pagetime : ℚ) / (h.long_data_record_duration : ℚ) * (h.smp_per_record : ℚ))

/-- viewbuf.cpp lines 578-595: for a negative view time the first on-screen
sample index (rounded to nearest, clamped at `0x7fffffff`), else 0. -/
def sample_start (h : EdfHdr) : ℤ :=
  if h.viewtime < 0 then
    min (ctrunc (((-h.viewtime : ℤ) : ℚ) / (h.long_data_record_duration : ℚ)
      * (h.smp_per_record : ℚ) + 1 / 2)) 0x7fffffff
  else 0

/-- viewbuf.cpp lines 597-620: integer part of the sub-record time offset in
samples (0 for negative view times). -/
def sample_timeoffset (h : EdfHdr) : ℤ :=
  if 0 ≤ h.viewtime then
    ctrunc (((h.viewtime.tmod h.long_data_record_duration : ℤ) : ℚ)
      / (h.long_data_record_duration : ℚ) * (h.smp_per_record : ℚ))
  else 0

/-- viewbuf.cpp lines 597-620: fractional part of the sub-record time offset
(sign-adjusted for negative view times). -/
def sample_timeoffset_part (h : EdfHdr) : ℚ :=
  if 0 ≤ h.viewtime then
    let part := ((h.viewtime.tmod h.long_data_record_duration : ℤ) : ℚ)
      / (h.long_data_record_duration : ℚ) * (h.smp_per_record : ℚ)
    part - (ctrunc part : ℚ)
  else
    let part := (((-h.viewtime).tmod h.long_data_record_duration : ℤ) : ℚ)
      / (h.long_data_record_duration : ℚ) * (h.smp_per_record : ℚ)
    let p2 := part - (ctrunc part : ℚ)
    if 1 / 2 ≤ p2 then 1 - p2 else -p2

/-- The per-composition bookkeeping of the planning pass (lines 566-649).
`recordsize` is the composition's own recording's record size; the three
shared fields `viewbufoffset` / `records_in_viewbuf` / `viewbufsize` may be
copied from an earlier composition on the same open file. -/
structure PlanRec where
  file_hdl : ℕ
  recordsize : ℤ
  viewbufoffset : ℤ
  records_in_viewbuf : ℤ
  viewbufsize : ℤ
  samples_on_screen : ℤ
  sample_start : ℤ
  sample_timeoffset : ℤ
  sample_timeoffset_part : ℚ
deriving DecidableEq

/-- The freshly computed plan record of one composition (before offset
assignment), viewbuf.cpp lines 566-620. -/
def planComp (pagetime : ℤ) (h : EdfHdr) : PlanRec :=
  { file_hdl := h.file_hdl
    recordsize := h.recordsize
    viewbufoffset := 0
    records_in_viewbuf := records_in_viewbuf pagetime h
    viewbufsize := records_in_viewbuf pagetime h * h.recordsize
    samples_on_screen := samples_on_screen pagetime h
    sample_start := sample_start h
    sample_timeoffset := sample_timeoffset h
    sample_timeoffset_part := sample_timeoffset_part h }

/-- viewbuf.cpp lines 622-648: assign buffer offsets left to right; a
composition whose recording has the same open file handle as an earlier one
(the first such, `j < i`) copies that one's offset, record count and buffer
size instead of extending the buffer.  Each plan record is kept paired with
the header of the composition it belongs to. -/
def assignOffsetsAux (pagetime : ℤ) (done : List (EdfHdr × PlanRec)) (totalsize : ℤ) :
    List SignalComp → List (EdfHdr × PlanRec) × ℤ
  | [] => (done, totalsize)
  | c :: cs =>
    let pr := planComp pagetime c.edfhdr
    match done.find? (fun q => q.2.file_hdl == pr.file_hdl) with
    | some q =>
        let pr2 : PlanRec :=
          { pr with
            viewbufoffset := q.2.viewbufoffset
            records_in_viewbuf := q.2.records_in_viewbuf
            viewbufsize := q.2.viewbufsize }
        assignOffsetsAux pagetime (done ++ [(c.edfhdr, pr2)]) totalsize cs
    | none =>
        assignOffsetsAux pagetime
          (done ++ [(c.edfhdr, { pr with viewbufoffset := totalsize })])
          (totalsize + pr.viewbufsize) cs

/-- The planning pass over all compositions: plan records (each paired with
its composition's header, in composition order) and the total buffer size. -/
def assignOffsets (pagetime : ℤ) (cs : List SignalComp) :
    List (EdfHdr × PlanRec) × ℤ :=
  assignOffsetsAux pagetime [] 0 cs

/-- An open file: byte contents and size.  `fread(_, len, 1, f)` at
position `pos` returns 1 exactly when the whole range is available. -/
structure CFile where
  bytes : ℤ → ℤ
  size : ℤ

/-- Success of `fseeko` + `fread(_, len, 1, _)`: the full item must be read
(`fread` returns 0 on a short or empty read). -/
def freadOk (f : CFile) (pos len : ℤ) : Bool :=
  decide (0 < len) && decide (0 ≤ pos) && decide (pos + len ≤ f.size)

/-- A buffer write operation: `memset(buf+off, 0, len)` or
`fread(buf+off, len, 1, file)` after seeking to `pos`. -/
inductive WOp where
  | wzero (off len : ℤ)
  | wread (hdl : ℕ) (pos off len : ℤ)
deriving DecidableEq

/-- Replay one write operation over a byte buffer. -/
def applyWOp (fs : ℕ → CFile) (b : ℤ → ℤ) : WOp → (ℤ → ℤ)
  | .wzero off len => fun j => if off ≤ j ∧ j < off + len then 0 else b j
  | .wread hdl pos off len => fun j =>
      if off ≤ j ∧ j < off + len then (fs hdl).bytes (pos + (j - off)) else b j

/-- Replay a list of write operations left to right. -/
def applyWOps (fs : ℕ → CFile) : (ℤ → ℤ) → List WOp → (ℤ → ℤ)
  | b, [] => b
  | b, op :: ops => applyWOps fs (applyWOp fs b op) ops

/-- The byte positions a write operation covers. -/
def opCovers (op : WOp) (j : ℤ) : Prop :=
  match op with
  | .wzero off len => off ≤ j ∧ j < off + len
  | .wread _ _ off len => off ≤ j ∧ j < off + len

/-- Is the operation a read from file handle `hd`? -/
def isReadForHdl (hd : ℕ) : WOp → Bool
  | .wread hdl _ _ _ => hdl == hd
  | _ => false

/-- Number of reads issued against file handle `hd`. -/
def readCountFor (hd : ℕ) (ops : List WOp) : ℕ :=
  (ops.filter (isReadForHdl hd)).length

/-- viewbuf.cpp lines 702-709 / 770-777: the first record of the visible
window (clamped to 0 for negative view times). -/
def datarecords_of (h : EdfHdr) : ℤ :=
  if 0 ≤ h.viewtime then h.viewtime.tdiv h.long_data_record_duration else 0

/-- viewbuf.cpp lines 711 / 779: records remaining in the recording from the
start of the visible window. -/
def dif_of (h : EdfHdr) : ℤ :=
  h.datarecords - datarecords_of h

/-- Error taxonomy of the materializer: capacity ceiling hit (lines
658-683), or a seek/read failure (lines 748-754 / 827-833). -/
inductive VErr where
  | capacity
  | ioerror
deriving DecidableEq

/-- Accumulator of the read/zero-fill loop (lines 698-839): plan records
already processed (for the shared-file check `j < i`), write operations
performed so far, per-composition `sample_stop` outputs, and the error, if
any (after which the loop body does nothing — the C function returned). -/
structure MatState where
  prev : List PlanRec
  ops : List WOp
  stops : List ℤ
  err : Option VErr

/-- One iteration of the read/zero-fill loop (lines 700-838) for the
composition with header `h` and plan record `pr`:
* if an earlier composition used the same open file (`skip`), no bytes are
  written or read again, but `sample_stop` is still computed;
* `dif ≤ 0` (window fully past the recording): the whole region is
  zero-filled, `sample_stop = 0`;
* `0 < dif <` records (window straddles the end): zero-fill exactly the
  tail, read exactly `dif` records, `sample_stop = dif·smp_per_record −
  sample_timeoffset`;
* otherwise read the full region, `sample_stop = samples_on_screen`;
finally `sample_stop += sample_start` (line 838).  A failed read aborts
with `ioerror` (the C code reports and returns). -/
def matStep (fs : ℕ → CFile) (st : MatState) (h : EdfHdr) (pr : PlanRec) : MatState :=
  if st.err.isSome then st
  else
    let skip := st.prev.any (fun q => q.file_hdl == pr.file_hdl)
    let datarecords := datarecords_of h
    let dif := dif_of h
    if dif ≤ 0 then
      { prev := st.prev ++ [pr]
        ops := if skip then st.ops
               else st.ops ++ [WOp.wzero pr.viewbufoffset (pr.records_in_viewbuf * h.recordsize)]
        stops := st.stops ++ [0 + pr.sample_start]
        err := st.err }
    else if dif < pr.records_in_viewbuf then
      let readsize := dif * h.recordsize
      let pos := h.hdrsize + datarecords * h.recordsize
      let stop := dif * h.smp_per_record - pr.sample_timeoffset + pr.sample_start
      if skip then
        { prev := st.prev ++ [pr], ops := st.ops, stops := st.stops ++ [stop], err := st.err }
      else
        let ops1 := st.ops ++ [WOp.wzero (pr.viewbufoffset + readsize)
          (pr.records_in_viewbuf * h.recordsize - readsize)]
        if freadOk (fs h.file_hdl) pos readsize then
          { prev := st.prev ++ [pr]
            ops := ops1 ++ [WOp.wread h.file_hdl pos pr.viewbufoffset readsize]
            stops := st.stops ++ [stop], err := st.err }
        else
          { prev := st.prev ++ [pr], ops := ops1, stops := st.stops, err := some .ioerror }
    else
      let readsize := pr.records_in_viewbuf * h.recordsize
      let pos := h.hdrsize + datarecords * h.recordsize
      let stop := pr.samples_on_screen + pr.sample_start
      if skip then
        { prev := st.prev ++ [pr], ops := st.ops, stops := st.stops ++ [stop], err := st.err }
      else if freadOk (fs h.file_hdl) pos readsize then
        { prev := st.prev ++ [pr]
          ops := st.ops ++ [WOp.wread h.file_hdl pos pr.viewbufoffset readsize]
          stops := st.stops ++ [stop], err := st.err }
      else
        { prev := st.prev ++ [pr], ops := st.ops, stops := st.stops, err := some .ioerror }

/-- The read/zero-fill loop over all compositions. -/
def matLoop (fs : ℕ → CFile) (st : MatState) : List (EdfHdr × PlanRec) → MatState
  | [] => st
  | (h, pr) :: rest => matLoop fs (matStep fs st h pr) rest

/-- The platform buffer ceiling on 64-bit builds, viewbuf.cpp line 662:
`0xffffffffULL * 32ULL` (`UINT_MAX * 32LL` at line 249). -/
def CEILING64 : ℤ := 0xffffffff * 32

/-- The mutable window state `setup_viewbuf` works on: the shared view
buffer (if allocated), its size, the page duration, and the active signal
compositions. -/
structure MWState where
  viewbuf : Option (ℤ → ℤ)
  totalviewbufsize_bytes : ℤ
  pagetime : ℤ
  signalcomp : List SignalComp

/-- Everything one call of the visible-window pass produces. -/
structure RunResult where
  st : MWState
  plan : List PlanRec
  totalsize : ℤ
  ops : List WOp
  stops : List ℤ
  err : Option VErr

/-- viewbuf.cpp lines 564-839, one visible-window materialization:
plan the layout, free the previous buffer (lines 651-656 — the old frame is
discarded unconditionally), enforce the capacity ceiling (on overflow:
report `capacity`, `remove_all_signals()`, clamp the page duration to at
most one second, abort — lines 662-671), allocate a fresh buffer whose
initial contents are the arbitrary `garbage`, and run the read/zero-fill
loop (a failed read reports `ioerror`, calls `remove_all_signals()` and
aborts).  `remove_all_signals` has no body under the provided sources; per
its name and its call sites it is modelled as clearing the active
signal-composition set.  `malloc` failure (lines 685-694) is not modelled:
allocation is assumed to succeed below the ceiling. -/
def setup_viewbuf_visible (garbage : ℤ → ℤ) (fs : ℕ → CFile) (st : MWState) :
    RunResult :=
  if (assignOffsets st.pagetime st.signalcomp).2 ≠ 0 ∧
      CEILING64 ≤ (assignOffsets st.pagetime st.signalcomp).2 then
    { st := { viewbuf := none, totalviewbufsize_bytes := 0
              pagetime := if TIME_FIXP_SCALING < st.pagetime then TIME_FIXP_SCALING
                          else st.pagetime
              signalcomp := [] }
      plan := ((assignOffsets st.pagetime st.signalcomp).1).map Prod.snd
      totalsize := (assignOffsets st.pagetime st.signalcomp).2
      ops := [], stops := [], err := some .capacity }
  else if (matLoop fs ⟨[], [], [], none⟩ (assignOffsets st.pagetime st.signalcomp).1).err.isSome then
    { st := { viewbuf :=
                if (assignOffsets st.pagetime st.signalcomp).2 ≠ 0 then
                  some (applyWOps fs garbage
                    (matLoop fs ⟨[], [], [], none⟩ (assignOffsets st.pagetime st.signalcomp).1).ops)
                else none
              totalviewbufsize_bytes :=
                if (assignOffsets st.pagetime st.signalcomp).2 ≠ 0 then
                  (assignOffsets st.pagetime st.signalcomp).2 else 0
              pagetime := st.pagetime
              signalcomp := [] }
      plan := ((assignOffsets st.pagetime st.signalcomp).1).map Prod.snd
      totalsize := (assignOffsets st.pagetime st.signalcomp).2
      ops := (matLoop fs ⟨[], [], [], none⟩ (assignOffsets st.pagetime st.signalcomp).1).ops
      stops := (matLoop fs ⟨[], [], [], none⟩ (assignOffsets st.pagetime st.signalcomp).1).stops
      err := (matLoop fs ⟨[], [], [], none⟩ (assignOffsets st.pagetime st.signalcomp).1).err }
  else
    { st := { viewbuf :=
                if (assignOffsets st.pagetime st.signalcomp).2 ≠ 0 then
                  some (applyWOps fs garbage
                    (matLoop fs ⟨[], [], [], none⟩ (assignOffsets st.pagetime st.signalcomp).1).ops)
                else none
              totalviewbufsize_bytes :=
                if (assignOffsets st.pagetime st.signalcomp).2 ≠ 0 then
                  (assignOffsets st.pagetime st.signalcomp).2 else 0
              pagetime := st.pagetime
              signalcomp := st.signalcomp }
      plan := ((assignOffsets st.pagetime st.signalcomp).1).map Prod.snd
      totalsize := (assignOffsets st.pagetime st.signalcomp).2
      ops := (matLoop fs ⟨[], [], [], none⟩ (assignOffsets st.pagetime st.signalcomp).1).ops
      stops := (matLoop fs ⟨[], [], [], none⟩ (assignOffsets st.pagetime st.signalcomp).1).stops
      err := none }

/-- The whole of `setup_viewbuf` for a frame whose compositions contain no
stateful filter: `hasprefilter` stays 0, so lines 171-562 are skipped and
the call is exactly the visible-window pass.  Frames with stateful
compositions take the warm-up path, whose constituents are modelled
separately above; they are outside this definition (`none`). -/
def setup_viewbuf_stateless (garbage : ℤ → ℤ) (fs : ℕ → CFile) (st : MWState) :
    Option RunResult :=
  if hasStatefulFilters st.signalcomp then none
  else some (setup_viewbuf_visible garbage fs st)

/-- Header coherence: every composition's header is determined by its open
file handle.  In the surrounding program compositions referencing the same
open file share one `edfhdrblck_t` object, so this holds by construction. -/
def hdrCoherent (Hmap : ℕ → EdfHdr) (cs : List SignalComp) : Prop :=
  ∀ c ∈ cs, Hmap c.edfhdr.file_hdl = c.edfhdr

/-- Structural alignment of a planned pair: the plan record's file handle
and record size are those of its composition's header (`planComp` sets them
and offset sharing never rewrites them). -/
def pairAligned (pc : EdfHdr × PlanRec) : Prop :=
  pc.2.file_hdl = pc.1.file_hdl ∧ pc.2.recordsize = pc.1.recordsize

/-- The sharing invariant of claim C7: any two plan records on the same open
file handle agree on buffer offset, record count and buffer size. -/
def planShareAll (l : List PlanRec) : Prop :=
  ∀ p ∈ l, ∀ q ∈ l, p.file_hdl = q.file_hdl →
    p.viewbufoffset = q.viewbufoffset ∧
    p.records_in_viewbuf = q.records_in_viewbuf ∧
    p.viewbufsize = q.viewbufsize

/-- Under header coherence, every plan record's record count and buffer size
are those computed from the (unique) header of its file handle. -/
def recordsGood (pagetime : ℤ) (Hmap : ℕ → EdfHdr) (pc : EdfHdr × PlanRec) : Prop :=
  pc.1 = Hmap pc.2.file_hdl ∧
  pc.2.records_in_viewbuf = records_in_viewbuf pagetime (Hmap pc.2.file_hdl) ∧
  pc.2.viewbufsize
    = records_in_viewbuf pagetime (Hmap pc.2.file_hdl) * (Hmap pc.2.file_hdl).recordsize

/-! ### Concrete instances used by counterexamples and witnesses -/

/-- A 1-second-record recording, 2 bytes per record, 5 records on file,
single 1-Hz channel. -/
def c2Hdr : EdfHdr :=
  { file_hdl := 0, viewtime := 0, long_data_record_duration := 10000000
    recordsize := 2, datarecords := 5, hdrsize := 0, smp_per_record := 1 }

/-- A stateless composition over `c2Hdr`. -/
def c2Comp : SignalComp :=
  { edfhdr := c2Hdr, filter_cnt := 0, spike_filter := false, ravg_filter_cnt := 0
    fidfilter_cnt := 0, fir_filter_cnt := 0, plif_ecg_filter := false
    plif_eeg_filter := false, ecg_filter := false, zratio_filter := false }

/-- A truncated file: only 3 bytes although the header promises 5 records of
2 bytes — the read of the 4-byte visible window fails. -/
def c2File : CFile := { bytes := fun _ => 9, size := 3 }

/-- Window state before the failing frame: a previously displayed buffer
(all bytes 7) and one composition. -/
def c2St : MWState :=
  { viewbuf := some (fun _ => 7), totalviewbufsize_bytes := 4
    pagetime := 10000000, signalcomp := [c2Comp] }

/-- The failing materialization of claim C2. -/
def c2Run : RunResult :=
  setup_viewbuf_visible (fun _ => 0) (fun _ => c2File) c2St

/-- A recording with 10^9-byte records: 201 records of the 200-second page
exceed the 64-bit ceiling `0xffffffff * 32`. -/
def c3Hdr : EdfHdr :=
  { file_hdl := 0, viewtime := 0, long_data_record_duration := 10000000
    recordsize := 1000000000, datarecords := 1000000, hdrsize := 0
    smp_per_record := 256 }

/-- A stateless composition over `c3Hdr`. -/
def c3Comp : SignalComp :=
  { edfhdr := c3Hdr, filter_cnt := 0, spike_filter := false, ravg_filter_cnt := 0
    fidfilter_cnt := 0, fir_filter_cnt := 0, plif_ecg_filter := false
    plif_eeg_filter := false, ecg_filter := false, zratio_filter := false }

/-- Window state whose 200-second page requests 2.01·10^11 bytes. -/
def c3St : MWState :=
  { viewbuf := none, totalviewbufsize_bytes := 0
    pagetime := 2000000000, signalcomp := [c3Comp] }

/-- The over-budget materialization of claim C3. -/
def c3Run : RunResult :=
  setup_viewbuf_visible (fun _ => 0) (fun _ => c2File) c3St

/-- A recording for the end-of-file boundary scenario: 1-second records of
4 bytes, 3 records on file, 2 samples per record, view time 1.5 s. -/
def c6Hdr : EdfHdr :=
  { file_hdl := 0, viewtime := 15000000, long_data_record_duration := 10000000
    recordsize := 4, datarecords := 3, hdrsize := 10, smp_per_record := 2 }

/-- A file large enough for every in-range read of `c6Hdr`. -/
def c6File : CFile := { bytes := fun j => j + 50, size := 100 }

/-- The plan record of `c6Hdr` for a 2-second page (3 records needed, the
window straddles the end of the recording: `dif = 2 < 3`). -/
def c6Plan : PlanRec := planComp 20000000 c6Hdr

/-- A stateless composition over `c6Hdr`. -/
def c6Comp : SignalComp :=
  { edfhdr := c6Hdr, filter_cnt := 0, spike_filter := false, ravg_filter_cnt := 0
    fidfilter_cnt := 0, fir_filter_cnt := 0, plif_ecg_filter := false
    plif_eeg_filter := false, ecg_filter := false, zratio_filter := false }

/-- Window state with two compositions on the same open recording and a
2-second page. -/
def c7St : MWState :=
  { viewbuf := none, totalviewbufsize_bytes := 0
    pagetime := 20000000, signalcomp := [c6Comp, c6Comp] }

/-- The shared-recording materialization of claims C7 and C8. -/
def c7Run : RunResult :=
  setup_viewbuf_visible (fun _ => 0) (fun _ => c6File) c7St

/-! ## Theorems -/

theorem ctrunc_of_nonneg {q : ℚ} (h : 0 ≤ q) : ctrunc q = ⌊q⌋ := by
  rw [ctrunc, Int.tdiv_eq_ediv (Rat.num_nonneg.2 h) (Int.natCast_nonneg q.den),
    Rat.floor_def]

/-- Claim C4 (counterexample): with a single first-order lowpass filter of
cutoff 3 Hz and a large positive view time, the computed warm-up duration is
`3333333` ticks — the truncation (floor) of `(1/3)·10^7` — while the spec's
`ceil(1/f · ticks_per_second)` demands `3333334`; the claim as stated fails. -/
theorem prefilter_duration_ceil_counterexample :
    prefiltertime (pre_time_first_order 3) (10 ^ 9) = 3333333 ∧
    prefiltertime_spec_ceil 3 (10 ^ 9) = 3333334 ∧
    prefiltertime (pre_time_first_order 3) (10 ^ 9)
      ≠ prefiltertime_spec_ceil 3 (10 ^ 9) := by
  have hfl : ctrunc (pre_time_first_order 3 * (TIME_FIXP_SCALING : ℚ)) = 3333333 := by
    rw [ctrunc_of_nonneg (by norm_num [pre_time_first_order, TIME_FIXP_SCALING])]
    norm_num [pre_time_first_order, TIME_FIXP_SCALING]
  have hcl : (⌈(1 / 3 : ℚ) * (TIME_FIXP_SCALING : ℚ)⌉ : ℤ) = 3333334 := by
    rw [Int.ceil_eq_iff]
    norm_num [TIME_FIXP_SCALING]
  have h1 : prefiltertime (pre_time_first_order 3) (10 ^ 9) = 3333333 := by
    show (if (10 ^ 9 : ℤ) < ctrunc (pre_time_first_order 3 * (TIME_FIXP_SCALING : ℚ)) then
          (if (10 ^ 9 : ℤ) < 0 then 0 else 10 ^ 9)
        else ctrunc (pre_time_first_order 3 * (TIME_FIXP_SCALING : ℚ))) = 3333333
    rw [hfl]
    norm_num
  have h2 : prefiltertime_spec_ceil 3 (10 ^ 9) = 3333334 := by
    show (if (10 ^ 9 : ℤ) < (⌈(1 / 3 : ℚ) * (TIME_FIXP_SCALING : ℚ)⌉ : ℤ) then
          (if (10 ^ 9 : ℤ) < 0 then 0 else 10 ^ 9)
        else (⌈(1 / 3 : ℚ) * (TIME_FIXP_SCALING : ℚ)⌉ : ℤ)) = 3333334
    rw [hcl]
    norm_num
  exact ⟨h1, h2, by rw [h1, h2]; decide⟩

/-- Claim C4 (amended): for a composition whose only stateful filter is one
first-order lowpass filter of cutoff `f > 0`, the computed warm-up duration
equals `floor((1/f)·10^7)` ticks (the C cast truncates the positive product,
it does not round up), clamped to not exceed the view time and to `0` when
the view time is negative — i.e. `min ⌊(1/f)·10^7⌋ (max viewtime 0)`. -/
theorem prefilter_duration_floor_clamped (f : ℚ) (vt : ℤ) (hf : 0 < f) :
    prefiltertime (pre_time_first_order f) vt
      = min ⌊1 / f * (TIME_FIXP_SCALING : ℚ)⌋ (max vt 0) := by
  have hq : (0:ℚ) ≤ 1 / f * (TIME_FIXP_SCALING : ℚ) := by
    have h1 : (0:ℚ) ≤ 1 / f := by positivity
    have h2 : (0:ℚ) ≤ (TIME_FIXP_SCALING : ℚ) := by norm_num [TIME_FIXP_SCALING]
    exact mul_nonneg h1 h2
  have hp : (0:ℤ) ≤ ⌊1 / f * (TIME_FIXP_SCALING : ℚ)⌋ := Int.floor_nonneg.2 hq
  show (if vt < ctrunc (1 / f * (TIME_FIXP_SCALING : ℚ)) then (if vt < 0 then 0 else vt)
        else ctrunc (1 / f * (TIME_FIXP_SCALING : ℚ)))
      = min ⌊1 / f * (TIME_FIXP_SCALING : ℚ)⌋ (max vt 0)
  rw [ctrunc_of_nonneg hq]
  omega

theorem prefilter_duration_floor_clamped_witness :
    (0:ℚ) < 3 ∧
    prefiltertime (pre_time_first_order 3) (10 ^ 9)
      = min ⌊1 / 3 * (TIME_FIXP_SCALING : ℚ)⌋ (max (10 ^ 9 : ℤ) 0) :=
  ⟨by norm_num, prefilter_duration_floor_clamped 3 (10 ^ 9) (by norm_num)⟩

/-- Claim C1: whenever warm-up runs (`0 ≤ prefiltertime ≤ viewtime`), the
sample index at which the Z-ratio filter is reset is the image, under the
code's own tick-to-sample conversion relative to the warm-up window start,
of an absolute recording time `T` that is a multiple of 2 seconds
(2·10^7 ticks) measured from recording start — `T` is the unique such epoch
boundary in `[prefilter_starttime, prefilter_starttime + 2s)`, and its
alignment is to absolute time 0, not to the view window. -/
theorem zratio_reset_absolute_epoch_alignment (viewtime pft ldrd spr : ℤ)
    (hld : 0 < ldrd) (hpf : 0 ≤ pft) (hvp : pft ≤ viewtime) :
    ∃ T : ℤ, T % (TIME_FIXP_SCALING * 2) = 0 ∧
      prefilter_starttime viewtime pft ldrd ≤ T ∧
      T < prefilter_starttime viewtime pft ldrd + TIME_FIXP_SCALING * 2 ∧
      prefilter_reset_sample (prefilter_starttime viewtime pft ldrd) ldrd spr
        = ticks_to_sample_index (T - prefilter_starttime viewtime pft ldrd) ldrd spr := by
  set st := prefilter_starttime viewtime pft ldrd with hstdef
  have hst0 : 0 ≤ st := by
    have h1 : 0 ≤ viewtime - pft := by omega
    exact mul_nonneg (Int.tdiv_nonneg h1 hld.le) hld.le
  have hE : (0:ℤ) < TIME_FIXP_SCALING * 2 := by norm_num [TIME_FIXP_SCALING]
  have htm : st.tmod (TIME_FIXP_SCALING * 2) = st % (TIME_FIXP_SCALING * 2) :=
    Int.tmod_eq_emod hst0 hE.le
  by_cases h0 : st % (TIME_FIXP_SCALING * 2) = 0
  · refine ⟨st, h0, le_refl _, by omega, ?_⟩
    have hl : st.tmod (TIME_FIXP_SCALING * 2) = 0 := by rw [htm]; exact h0
    simp [prefilter_reset_sample, hl, ticks_to_sample_index, ctrunc]
  · refine ⟨st + (TIME_FIXP_SCALING * 2 - st % (TIME_FIXP_SCALING * 2)), ?_, ?_, ?_, ?_⟩
    · have hrw : st + (TIME_FIXP_SCALING * 2 - st % (TIME_FIXP_SCALING * 2))
          = (TIME_FIXP_SCALING * 2) * (st / (TIME_FIXP_SCALING * 2) + 1) := by
        simp only [TIME_FIXP_SCALING]
        omega
      rw [hrw]
      exact Int.mul_emod_right _ _
    · have := Int.emod_lt_of_pos st hE
      omega
    · have := Int.emod_nonneg st hE.ne'
      omega
    · have hl : st.tmod (TIME_FIXP_SCALING * 2) ≠ 0 := by rw [htm]; exact h0
      have harg : st + (TIME_FIXP_SCALING * 2 - st % (TIME_FIXP_SCALING * 2)) - st
          = TIME_FIXP_SCALING * 2 - st.tmod (TIME_FIXP_SCALING * 2) := by rw [htm]; ring
      rw [harg, prefilter_reset_sample, if_pos hl]

theorem zratio_reset_absolute_epoch_alignment_witness :
    ((0:ℤ) < 3000000 ∧ (0:ℤ) ≤ 10000000 ∧ (10000000:ℤ) ≤ 33000000) ∧
    (∃ T : ℤ, T % (TIME_FIXP_SCALING * 2) = 0 ∧
      prefilter_starttime 33000000 10000000 3000000 ≤ T ∧
      T < prefilter_starttime 33000000 10000000 3000000 + TIME_FIXP_SCALING * 2 ∧
      prefilter_reset_sample (prefilter_starttime 33000000 10000000 3000000) 3000000 256
        = ticks_to_sample_index (T - prefilter_starttime 33000000 10000000 3000000) 3000000 256) :=
  ⟨⟨by decide, by decide, by decide⟩,
   zratio_reset_absolute_epoch_alignment 33000000 10000000 3000000 256
     (by decide) (by decide) (by decide)⟩

set_option maxRecDepth 100000 in
/-- Claim C5 (code bug): the `save_buf`/`restore_buf` round trip of the
Z-ratio filter does NOT restore the filter's running state.  At the concrete
instance below (`dftblocksize = 200`), after `save_buf`, processing 196
samples, `reset` and `restore_buf`, the counter and the cached ratio are
restored but ring element 25 is not (the `memcpy` length of `dftblocksize`
bytes only covers elements 0–24): it holds 2 instead of the snapshotted 1.
Consequently the input block handed to the spectral estimator at the block
boundary differs between the first pass and the replayed pass (element 25 is
1 versus 2), so the filtered output of the two passes differs for any
spectral map that separates the two blocks — contradicting the claimed
round-trip identity. -/
theorem zratio_save_restore_roundtrip_broken :
    zrC5restored.smpls_in_inputbuf = zrC5snap.smpls_in_inputbuf ∧
    zrC5restored.zratio_value = zrC5snap.zratio_value ∧
    zrC5snap.fft_inputbuf 25 = 1 ∧
    zrC5restored.fft_inputbuf 25 = 2 ∧
    zrC5restored.fft_inputbuf ≠ zrC5snap.fft_inputbuf ∧
    zrC5boundaryBuf1 25 = 1 ∧
    zrC5boundaryBuf2 25 = 2 ∧
    zrC5boundaryBuf1 ≠ zrC5boundaryBuf2 := by
  refine ⟨by decide, by decide, by decide, by decide, ?hb, by decide, by decide, ?he⟩
  case hb =>
    intro h
    have h2 := congrFun h 25
    revert h2
    decide
  case he =>
    intro h
    have h2 := congrFun h 25
    revert h2
    decide

/-- Helper for claim C10: starting from any state whose cached ratio is 0,
as long as the block boundary is not reached, every returned value is 0. -/
theorem run_zratio_filter_list_zero_out (spectral : (ℕ → ℚ) → ℚ) :
    ∀ (xs : List ℚ) (s : Zratiofiltset), s.zratio_value = 0 →
      s.smpls_in_inputbuf + xs.length < s.dftblocksize →
      (run_zratio_filter_list spectral s xs).1 = List.replicate xs.length 0 := by
  intro xs
  induction xs with
  | nil => intro s h0 hl; rfl
  | cons x xs ih =>
    intro s h0 hl
    simp only [List.length_cons] at hl
    have hlt : ¬ (s.dftblocksize ≤ s.smpls_in_inputbuf + 1) := by omega
    simp only [run_zratio_filter_list, run_zratio_filter, if_neg hlt, h0, zero_div,
      List.length_cons, List.replicate_succ]
    refine congrArg (List.cons 0) ?_
    refine ih _ rfl ?_
    show s.smpls_in_inputbuf + 1 + xs.length < s.dftblocksize
    omega

/-- Claim C10: the Z-ratio filter's output is piecewise constant between
block boundaries — `run_zratio_filter` always returns the (updated) stored
`zratio_value` divided by `bitvalue`; when the incremented sample counter
has not reached `dftblocksize` the stored value is unchanged and the call
returns the old `zratio_value / bitvalue`; and after `reset_zratio_filter`
every one of the first `dftblocksize - 1` calls returns 0.  Stated for every
spectral map, hence for the FFT band-power ratio of the source. -/
theorem zratio_output_piecewise_constant (spectral : (ℕ → ℚ) → ℚ)
    (s : Zratiofiltset) (x : ℚ) (xs : List ℚ)
    (hmid : s.smpls_in_inputbuf + 1 < s.dftblocksize)
    (hlen : xs.length < s.dftblocksize) :
    (run_zratio_filter spectral x s).1
      = (run_zratio_filter spectral x s).2.zratio_value / s.bitvalue ∧
    (run_zratio_filter spectral x s).2.zratio_value = s.zratio_value ∧
    (run_zratio_filter spectral x s).1 = s.zratio_value / s.bitvalue ∧
    (run_zratio_filter_list spectral (reset_zratio_filter s) xs).1
      = List.replicate xs.length 0 := by
  have hneg : ¬ (s.dftblocksize ≤ s.smpls_in_inputbuf + 1) := by omega
  refine ⟨?_, ?_, ?_, ?_⟩
  · simp [run_zratio_filter, if_neg hneg]
  · simp [run_zratio_filter, if_neg hneg]
  · simp [run_zratio_filter, if_neg hneg]
  · exact run_zratio_filter_list_zero_out spectral xs (reset_zratio_filter s) rfl
      (by simpa [reset_zratio_filter] using hlen)

theorem zratio_output_piecewise_constant_witness :
    (zrC5start.smpls_in_inputbuf + 1 < zrC5start.dftblocksize ∧
      (List.replicate 3 (1:ℚ)).length < zrC5start.dftblocksize) ∧
    (run_zratio_filter_list (fun _ => 0) (reset_zratio_filter zrC5start)
      (List.replicate 3 1)).1 = List.replicate 3 0 :=
  ⟨⟨by decide, by decide⟩, by
    have h := zratio_output_piecewise_constant (fun _ => 0) zrC5start 5
      (List.replicate 3 1) (by decide) (by decide)
    simpa using h.2.2.2⟩

/-- Helper for claim C9: once the loop index is positive, the warm-up loop
is a plain left fold of the filter step over the samples. -/
theorem ecg_warmup_loop_pos_index {σ : Type} (run : σ → ℚ → σ) (resetSt : σ) :
    ∀ (xs : List ℚ) (st : σ) (s : ℕ), s ≠ 0 →
      ecg_warmup_loop run resetSt st s xs = xs.foldl run st := by
  intro xs
  induction xs with
  | nil => intro st s hs; rfl
  | cons x xs ih =>
    intro st s hs
    simp only [ecg_warmup_loop, if_neg hs, List.foldl]
    exact ih _ _ (by omega)

/-- Claim C9: in every frame in which warm-up runs (a nonempty warm-up
sample list), the ECG filter is reset exactly at warm-up sample index 0, so
the post-warm-up filter state equals the fold of the filter step over the
warm-up samples starting from the reset state — independent of whatever
state the filter carried in from a previous frame. -/
theorem ecg_reset_at_first_warmup_sample {σ : Type} (run : σ → ℚ → σ)
    (resetSt st st' : σ) (xs : List ℚ) (h : xs ≠ []) :
    ecg_warmup_loop run resetSt st 0 xs = xs.foldl run resetSt ∧
    ecg_warmup_loop run resetSt st 0 xs = ecg_warmup_loop run resetSt st' 0 xs := by
  cases xs with
  | nil => exact absurd rfl h
  | cons x xs =>
    have e1 : ∀ s0 : σ, ecg_warmup_loop run resetSt s0 0 (x :: xs)
        = ecg_warmup_loop run resetSt (run resetSt x) 1 xs := by
      intro s0; simp [ecg_warmup_loop]
    rw [e1 st, e1 st', ecg_warmup_loop_pos_index run resetSt xs _ 1 one_ne_zero]
    exact ⟨rfl, rfl⟩

theorem ecg_reset_at_first_warmup_sample_witness :
    (([1, 2] : List ℚ) ≠ []) ∧
    ecg_warmup_loop (fun a x => a + x) (0:ℚ) 5 0 [1, 2]
      = ([1, 2] : List ℚ).foldl (fun a x => a + x) 0 :=
  ⟨by decide,
   (ecg_reset_at_first_warmup_sample (fun a x => a + x) (0:ℚ) 5 7 [1, 2] (by decide)).1⟩

/-! ### Lemmas about the write-operation replay -/

theorem applyWOps_agree (fs : ℕ → CFile) :
    ∀ (l : List WOp) (b1 b2 : ℤ → ℤ) (j : ℤ), b1 j = b2 j →
      applyWOps fs b1 l j = applyWOps fs b2 l j := by
  intro l
  induction l with
  | nil => intro b1 b2 j h; exact h
  | cons op ops ih =>
    intro b1 b2 j h
    refine ih _ _ j ?_
    cases op with
    | wzero off len => simp only [applyWOp]; split <;> simp [h]
    | wread hdl pos off len => simp only [applyWOp]; split <;> simp [h]

theorem applyWOps_covered (fs : ℕ → CFile) :
    ∀ (l : List WOp) (b1 b2 : ℤ → ℤ) (j : ℤ),
      (∃ op ∈ l, opCovers op j) →
      applyWOps fs b1 l j = applyWOps fs b2 l j := by
  intro l
  induction l with
  | nil => intro b1 b2 j h; exact absurd h (by simp)
  | cons op ops ih =>
    intro b1 b2 j h
    obtain ⟨op0, hmem, hcov⟩ := h
    rcases List.mem_cons.1 hmem with heq | htail
    · subst heq
      refine applyWOps_agree fs ops _ _ j ?_
      cases op0 with
      | wzero off len =>
        simp only [opCovers] at hcov
        simp only [applyWOp]
        rw [if_pos hcov, if_pos hcov]
      | wread hdl pos off len =>
        simp only [opCovers] at hcov
        simp only [applyWOp]
        rw [if_pos hcov, if_pos hcov]
    · exact ih _ _ j ⟨op0, htail, hcov⟩

/-! ### Lemmas about the read/zero-fill loop -/

theorem matStep_err_none {fs : ℕ → CFile} {st : MatState} {h : EdfHdr} {pr : PlanRec}
    (hn : (matStep fs st h pr).err = none) : st.err = none := by
  by_cases hs : st.err.isSome = true
  · simpa [matStep, hs] using hn
  · exact Option.not_isSome_iff_eq_none.1 (by simpa using hs)

theorem matLoop_err_none {fs : ℕ → CFile} :
    ∀ (l : List (EdfHdr × PlanRec)) (st : MatState),
      (matLoop fs st l).err = none → st.err = none := by
  intro l
  induction l with
  | nil => intro st h; exact h
  | cons pc rest ih =>
    intro st h
    obtain ⟨hd, pr⟩ := pc
    exact matStep_err_none (ih (matStep fs st hd pr) h)

theorem matStep_prev {fs : ℕ → CFile} {st : MatState} {h : EdfHdr} {pr : PlanRec}
    (hn : st.err = none) : (matStep fs st h pr).prev = st.prev ++ [pr] := by
  have h0 : st.err.isSome = false := by rw [hn]; rfl
  simp only [matStep, h0, Bool.false_eq_true, if_false]
  split_ifs <;> rfl

theorem matStep_ops_mono {fs : ℕ → CFile} {st : MatState} {h : EdfHdr} {pr : PlanRec}
    (hn : st.err = none) {op : WOp} (hop : op ∈ st.ops) :
    op ∈ (matStep fs st h pr).ops := by
  have h0 : st.err.isSome = false := by rw [hn]; rfl
  simp only [matStep, h0, Bool.false_eq_true, if_false]
  split_ifs <;> simp [List.mem_append, hop]

theorem matLoop_prev {fs : ℕ → CFile} :
    ∀ (l : List (EdfHdr × PlanRec)) (st : MatState),
      (matLoop fs st l).err = none →
      (matLoop fs st l).prev = st.prev ++ l.map Prod.snd := by
  intro l
  induction l with
  | nil => intro st _; simp [matLoop]
  | cons pc rest ih =>
    intro st h
    obtain ⟨hd, pr⟩ := pc
    have hst : st.err = none :=
      matStep_err_none (matLoop_err_none rest (matStep fs st hd pr) h)
    have h1 : (matLoop fs (matStep fs st hd pr) rest).prev
        = (matStep fs st hd pr).prev ++ rest.map Prod.snd :=
      ih (matStep fs st hd pr) h
    show (matLoop fs (matStep fs st hd pr) rest).prev = _
    rw [h1, matStep_prev hst]
    simp

theorem matLoop_ops_mono {fs : ℕ → CFile} :
    ∀ (l : List (EdfHdr × PlanRec)) (st : MatState),
      (matLoop fs st l).err = none →
      ∀ op ∈ st.ops, op ∈ (matLoop fs st l).ops := by
  intro l
  induction l with
  | nil => intro st _ op hop; exact hop
  | cons pc rest ih =>
    intro st h op hop
    obtain ⟨hd, pr⟩ := pc
    have hst : st.err = none :=
      matStep_err_none (matLoop_err_none rest (matStep fs st hd pr) h)
    exact ih (matStep fs st hd pr) h op (matStep_ops_mono hst hop)

/-! ### Invariants of the planning pass -/

theorem assignOffsetsAux_handles (pt : ℤ) :
    ∀ (cs : List SignalComp) (done : List (EdfHdr × PlanRec)) (t : ℤ),
      ((assignOffsetsAux pt done t cs).1.map (fun pc => pc.2.file_hdl))
        = done.map (fun pc => pc.2.file_hdl) ++ cs.map (fun c => c.edfhdr.file_hdl) := by
  intro cs
  induction cs with
  | nil => intro done t; simp [assignOffsetsAux]
  | cons c cs ih =>
    intro done t
    simp only [assignOffsetsAux]
    rcases hf : done.find?
        (fun q => q.2.file_hdl == (planComp pt c.edfhdr).file_hdl) with _ | q <;>
      simp only [hf] <;> rw [ih] <;> simp [planComp]

theorem assignOffsetsAux_aligned (pt : ℤ) :
    ∀ (cs : List SignalComp) (done : List (EdfHdr × PlanRec)) (t : ℤ),
      (∀ pc ∈ done, pairAligned pc) →
      ∀ pc ∈ (assignOffsetsAux pt done t cs).1, pairAligned pc := by
  intro cs
  induction cs with
  | nil => intro done t hd pc hpc; exact hd pc hpc
  | cons c cs ih =>
    intro done t hd
    simp only [assignOffsetsAux]
    rcases hf : done.find?
        (fun q => q.2.file_hdl == (planComp pt c.edfhdr).file_hdl) with _ | q <;>
      simp only [hf] <;>
      refine ih _ _ (fun pc hpc => ?_) <;>
      rcases List.mem_append.1 hpc with hin | hin
    · exact hd pc hin
    · have : pc = (c.edfhdr, { planComp pt c.edfhdr with viewbufoffset := t }) := by
        simpa using hin
      subst this
      exact ⟨rfl, rfl⟩
    · exact hd pc hin
    · have : pc = (c.edfhdr,
          { planComp pt c.edfhdr with
            viewbufoffset := q.2.viewbufoffset
            records_in_viewbuf := q.2.records_in_viewbuf
            viewbufsize := q.2.viewbufsize }) := by
        simpa using hin
      subst this
      exact ⟨rfl, rfl⟩

theorem assignOffsetsAux_recordsGood (pt : ℤ) (Hmap : ℕ → EdfHdr) :
    ∀ (cs : List SignalComp) (done : List (EdfHdr × PlanRec)) (t : ℤ),
      (∀ c ∈ cs, Hmap c.edfhdr.file_hdl = c.edfhdr) →
      (∀ pc ∈ done, recordsGood pt Hmap pc) →
      ∀ pc ∈ (assignOffsetsAux pt done t cs).1, recordsGood pt Hmap pc := by
  intro cs
  induction cs with
  | nil => intro done t _ hd pc hpc; exact hd pc hpc
  | cons c cs ih =>
    intro done t hcoh hd
    have hcohc : Hmap c.edfhdr.file_hdl = c.edfhdr := hcoh c (by simp)
    have hcohcs : ∀ c0 ∈ cs, Hmap c0.edfhdr.file_hdl = c0.edfhdr :=
      fun c0 h0 => hcoh c0 (by simp [h0])
    simp only [assignOffsetsAux]
    rcases hf : done.find?
        (fun q => q.2.file_hdl == (planComp pt c.edfhdr).file_hdl) with _ | q
    · simp only [hf]
      refine ih _ _ hcohcs (fun pc hpc => ?_)
      rcases List.mem_append.1 hpc with hin | hin
      · exact hd pc hin
      · have : pc = (c.edfhdr, { planComp pt c.edfhdr with viewbufoffset := t }) := by
          simpa using hin
        subst this
        refine ⟨?_, ?_, ?_⟩ <;> simp [planComp, hcohc]
    · simp only [hf]
      have hqmem : q ∈ done := List.mem_of_find?_eq_some hf
      have hqgood := hd q hqmem
      have hqhdl : q.2.file_hdl = (planComp pt c.edfhdr).file_hdl := by
        have := List.find?_some hf
        simpa using this
      have hqhdl2 : q.2.file_hdl = c.edfhdr.file_hdl := by
        simpa [planComp] using hqhdl
      refine ih _ _ hcohcs (fun pc hpc => ?_)
      rcases List.mem_append.1 hpc with hin | hin
      · exact hd pc hin
      · have : pc = (c.edfhdr,
            { planComp pt c.edfhdr with
              viewbufoffset := q.2.viewbufoffset
              records_in_viewbuf := q.2.records_in_viewbuf
              viewbufsize := q.2.viewbufsize }) := by
          simpa using hin
        subst this
        obtain ⟨hq1, hq2, hq3⟩ := hqgood
        refine ⟨?_, ?_, ?_⟩
        · simp [planComp, hcohc]
        · show q.2.records_in_viewbuf = records_in_viewbuf pt (Hmap c.edfhdr.file_hdl)
          rw [hq2, hqhdl2]
        · show q.2.viewbufsize
            = records_in_viewbuf pt (Hmap c.edfhdr.file_hdl)
              * (Hmap c.edfhdr.file_hdl).recordsize
          rw [hq3, hqhdl2]

theorem assignOffsetsAux_shareAll (pt : ℤ) :
    ∀ (cs : List SignalComp) (done : List (EdfHdr × PlanRec)) (t : ℤ),
      planShareAll (done.map Prod.snd) →
      planShareAll ((assignOffsetsAux pt done t cs).1.map Prod.snd) := by
  intro cs
  induction cs with
  | nil => intro done t hd; exact hd
  | cons c cs ih =>
    intro done t hd
    simp only [assignOffsetsAux]
    rcases hf : done.find?
        (fun q => q.2.file_hdl == (planComp pt c.edfhdr).file_hdl) with _ | q
    · simp only [hf]
      refine ih _ _ ?_
      have hnone : ∀ r ∈ done, ¬ (r.2.file_hdl == (planComp pt c.edfhdr).file_hdl) = true := by
        intro r hr
        exact List.find?_eq_none.1 hf r hr
      intro p hp q0 hq0 hpq
      simp only [List.map_append, List.map_cons, List.map_nil] at hp hq0
      rcases List.mem_append.1 hp with hp1 | hp1 <;>
        rcases List.mem_append.1 hq0 with hq1 | hq1
      · exact hd p hp1 q0 hq1 hpq
      · exfalso
        have hq2 : q0 = { planComp pt c.edfhdr with viewbufoffset := t } := by
          simpa using hq1
        obtain ⟨rp, hrp, hrp2⟩ := List.mem_map.1 hp1
        refine hnone rp hrp ?_
        subst hq2
        simp only [beq_iff_eq]
        rw [hrp2, hpq]
      · exfalso
        have hp2 : p = { planComp pt c.edfhdr with viewbufoffset := t } := by
          simpa using hp1
        obtain ⟨rq, hrq, hrq2⟩ := List.mem_map.1 hq1
        refine hnone rq hrq ?_
        subst hp2
        simp only [beq_iff_eq]
        rw [hrq2, ← hpq]
      · have hp2 : p = { planComp pt c.edfhdr with viewbufoffset := t } := by
          simpa using hp1
        have hq2 : q0 = { planComp pt c.edfhdr with viewbufoffset := t } := by
          simpa using hq1
        subst hp2
        subst hq2
        exact ⟨rfl, rfl, rfl⟩
    · simp only [hf]
      have hqmem : q.2 ∈ done.map Prod.snd := List.mem_map.2 ⟨q, List.mem_of_find?_eq_some hf, rfl⟩
      have hqhdl : q.2.file_hdl = (planComp pt c.edfhdr).file_hdl := by
        have := List.find?_some hf
        simpa using this
      refine ih _ _ ?_
      set newpr : PlanRec :=
        { planComp pt c.edfhdr with
          viewbufoffset := q.2.viewbufoffset
          records_in_viewbuf := q.2.records_in_viewbuf
          viewbufsize := q.2.viewbufsize } with hnew
      have hnewhdl : newpr.file_hdl = q.2.file_hdl := by rw [hqhdl]
      intro p hp q0 hq0 hpq
      simp only [List.map_append, List.map_cons, List.map_nil] at hp hq0
      rcases List.mem_append.1 hp with hp1 | hp1 <;>
        rcases List.mem_append.1 hq0 with hq1 | hq1
      · exact hd p hp1 q0 hq1 hpq
      · have hq2 : q0 = newpr := by simpa using hq1
        subst hq2
        have hpq2 : p.file_hdl = q.2.file_hdl := by rw [hpq, hnewhdl]
        obtain ⟨e1, e2, e3⟩ := hd p hp1 q.2 hqmem hpq2
        exact ⟨e1, e2, e3⟩
      · have hp2 : p = newpr := by simpa using hp1
        subst hp2
        have hpq2 : q.2.file_hdl = q0.file_hdl := by rw [← hpq, hnewhdl]
        obtain ⟨e1, e2, e3⟩ := hd q.2 hqmem q0 hq1 hpq2
        exact ⟨e1, e2, e3⟩
      · have hp2 : p = newpr := by simpa using hp1
        have hq2 : q0 = newpr := by simpa using hq1
        subst hp2
        subst hq2
        exact ⟨rfl, rfl, rfl⟩

/-! ### Read counting for claim C7 -/

theorem readCountFor_append (hd : ℕ) (a b : List WOp) :
    readCountFor hd (a ++ b) = readCountFor hd a + readCountFor hd b := by
  simp [readCountFor, List.filter_append]

theorem readCountFor_wzero (hd : ℕ) (off len : ℤ) :
    readCountFor hd [WOp.wzero off len] = 0 := by
  simp [readCountFor, List.filter, isReadForHdl]

theorem readCountFor_wread (hd hdl : ℕ) (pos off len : ℤ) :
    readCountFor hd [WOp.wread hdl pos off len] = if hdl = hd then 1 else 0 := by
  by_cases h : hdl = hd
  · simp [readCountFor, List.filter_singleton, isReadForHdl, h]
  · simp [readCountFor, List.filter_singleton, isReadForHdl, h]

theorem matStep_readCount {fs : ℕ → CFile} {st : MatState} {h : EdfHdr}
    {pr : PlanRec} (hd : ℕ) (hn : st.err = none)
    (hne : (matStep fs st h pr).err = none)
    (halign : pr.file_hdl = h.file_hdl) :
    readCountFor hd (matStep fs st h pr).ops
      = readCountFor hd st.ops +
        (if st.prev.any (fun q => q.file_hdl == pr.file_hdl) = false ∧
            pr.file_hdl = hd ∧ 0 < dif_of h then 1 else 0) := by
  have h0 : st.err.isSome = false := by rw [hn]; rfl
  simp only [matStep, h0, Bool.false_eq_true, if_false] at hne ⊢
  by_cases hcond : ((st.prev.any fun q => q.file_hdl == pr.file_hdl) = false ∧
      pr.file_hdl = hd ∧ 0 < dif_of h)
  · rw [if_pos hcond]
    obtain ⟨hskf, hh, hdif⟩ := hcond
    simp only [hskf, Bool.false_eq_true, if_false] at hne ⊢
    rw [if_neg (by omega : ¬ dif_of h ≤ 0)] at hne ⊢
    by_cases hmid : dif_of h < pr.records_in_viewbuf
    · rw [if_pos hmid] at hne ⊢
      by_cases hread : freadOk (fs h.file_hdl) (h.hdrsize + datarecords_of h * h.recordsize)
          (dif_of h * h.recordsize) = true
      · rw [if_pos hread]
        simp only [readCountFor_append, readCountFor_wzero, readCountFor_wread]
        rw [if_pos (halign ▸ hh)]
      · rw [if_neg hread] at hne
        simp at hne
    · rw [if_neg hmid] at hne ⊢
      by_cases hread : freadOk (fs h.file_hdl) (h.hdrsize + datarecords_of h * h.recordsize)
          (pr.records_in_viewbuf * h.recordsize) = true
      · rw [if_pos hread]
        simp only [readCountFor_append, readCountFor_wread]
        rw [if_pos (halign ▸ hh)]
      · rw [if_neg hread] at hne
        simp at hne
  · rw [if_neg hcond]
    by_cases hskip : (st.prev.any fun q => q.file_hdl == pr.file_hdl) = true
    · simp only [hskip, if_true]
      split_ifs <;> simp [readCountFor_append, readCountFor_wzero]
    · have hskf : (st.prev.any fun q => q.file_hdl == pr.file_hdl) = false := by
        simpa using hskip
      have hh : ¬ pr.file_hdl = hd ∨ ¬ 0 < dif_of h := by
        by_contra hcc
        push_neg at hcc
        exact hcond ⟨hskf, hcc.1, hcc.2⟩
      simp only [hskf, Bool.false_eq_true, if_false] at hne ⊢
      by_cases hdif0 : dif_of h ≤ 0
      · rw [if_pos hdif0]
        simp [readCountFor_append, readCountFor_wzero]
      · rw [if_neg hdif0] at hne ⊢
        have hhd : ¬ h.file_hdl = hd := by
          rcases hh with h1 | h1
          · exact fun hc => h1 (halign.trans hc)
          · omega
        by_cases hmid : dif_of h < pr.records_in_viewbuf
        · rw [if_pos hmid] at hne ⊢
          by_cases hread : freadOk (fs h.file_hdl)
              (h.hdrsize + datarecords_of h * h.recordsize)
              (dif_of h * h.recordsize) = true
          · rw [if_pos hread]
            simp only [readCountFor_append, readCountFor_wzero, readCountFor_wread]
            rw [if_neg hhd]
          · rw [if_neg hread] at hne
            simp at hne
        · rw [if_neg hmid] at hne ⊢
          by_cases hread : freadOk (fs h.file_hdl)
              (h.hdrsize + datarecords_of h * h.recordsize)
              (pr.records_in_viewbuf * h.recordsize) = true
          · rw [if_pos hread]
            simp only [readCountFor_append, readCountFor_wread]
            rw [if_neg hhd]
          · rw [if_neg hread] at hne
            simp at hne

theorem matLoop_readCount {fs : ℕ → CFile} (Hmap : ℕ → EdfHdr) (hd : ℕ) :
    ∀ (l : List (EdfHdr × PlanRec)) (st : MatState),
      (matLoop fs st l).err = none →
      (∀ pc ∈ l, pairAligned pc ∧ pc.1 = Hmap pc.2.file_hdl) →
      readCountFor hd (matLoop fs st l).ops
        = readCountFor hd st.ops +
          (if st.prev.any (fun q => q.file_hdl == hd) = false ∧
              l.any (fun pc => pc.2.file_hdl == hd) = true ∧
              0 < dif_of (Hmap hd) then 1 else 0) := by
  intro l
  induction l with
  | nil =>
    intro st _ _
    rw [if_neg (by simp)]
    simp [matLoop]
  | cons pc rest ih =>
    intro st hok hal
    obtain ⟨h1, pr⟩ := pc
    have hrest : (matLoop fs (matStep fs st h1 pr) rest).err = none := hok
    have hst1 : (matStep fs st h1 pr).err = none := matLoop_err_none rest _ hrest
    have hst : st.err = none := matStep_err_none hst1
    have hha : pr.file_hdl = h1.file_hdl := (hal (h1, pr) (by simp)).1.1
    have hhm : h1 = Hmap pr.file_hdl := (hal (h1, pr) (by simp)).2
    have halrest : ∀ pc ∈ rest, pairAligned pc ∧ pc.1 = Hmap pc.2.file_hdl :=
      fun pc hpc => hal pc (by simp [hpc])
    show readCountFor hd (matLoop fs (matStep fs st h1 pr) rest).ops = _
    rw [ih (matStep fs st h1 pr) hrest halrest]
    rw [matStep_readCount hd hst hst1 hha]
    have hprev1 : (matStep fs st h1 pr).prev = st.prev ++ [pr] := matStep_prev hst
    have hany : (matStep fs st h1 pr).prev.any (fun q => q.file_hdl == hd)
        = (st.prev.any (fun q => q.file_hdl == hd) || (pr.file_hdl == hd)) := by
      rw [hprev1]
      simp [List.any_append]
    rw [hany]
    simp only [List.any_cons]
    by_cases hB : pr.file_hdl = hd
    · subst hB
      rw [← hhm]
      by_cases hA : (st.prev.any fun q => q.file_hdl == pr.file_hdl) = true
      · rw [if_neg (by simp [hA]), if_neg (by simp [hA]), if_neg (by simp [hA])]
      · have hAf : (st.prev.any fun q => q.file_hdl == pr.file_hdl) = false := by
          simpa using hA
        by_cases hD : 0 < dif_of h1
        · rw [if_pos ⟨hAf, rfl, hD⟩, if_neg (by simp [hAf]), if_pos ⟨hAf, by simp, hD⟩]
        · rw [if_neg (fun hc => hD hc.2.2), if_neg (by simp [hAf]),
              if_neg (fun hc => hD hc.2.2)]
    · have hBf : (pr.file_hdl == hd) = false := by simp [hB]
      rw [if_neg (fun hc => hB hc.2.1)]
      simp only [hBf, Bool.or_false, Bool.false_or]
      omega

/-! ### Write coverage for claim C8 -/

theorem matStep_covers {fs : ℕ → CFile} {st : MatState} {h : EdfHdr} {pr : PlanRec}
    (hn : st.err = none) (hne : (matStep fs st h pr).err = none)
    (hrs : pr.recordsize = h.recordsize)
    (hsize : pr.viewbufsize = pr.records_in_viewbuf * pr.recordsize)
    (hshare : ∀ q ∈ st.prev, q.file_hdl = pr.file_hdl →
      q.viewbufoffset = pr.viewbufoffset ∧ q.records_in_viewbuf = pr.records_in_viewbuf ∧
      q.viewbufsize = pr.viewbufsize)
    (K : ∀ p ∈ st.prev, ∀ j : ℤ, p.viewbufoffset ≤ j →
      j < p.viewbufoffset + p.viewbufsize → ∃ op ∈ st.ops, opCovers op j) :
    ∀ p ∈ (matStep fs st h pr).prev, ∀ j : ℤ, p.viewbufoffset ≤ j →
      j < p.viewbufoffset + p.viewbufsize →
      ∃ op ∈ (matStep fs st h pr).ops, opCovers op j := by
  rw [hrs] at hsize
  have hprev : (matStep fs st h pr).prev = st.prev ++ [pr] := matStep_prev hn
  intro p hp j hj1 hj2
  rw [hprev] at hp
  rcases List.mem_append.1 hp with hold | hnew
  · obtain ⟨op, hop, hcov⟩ := K p hold j hj1 hj2
    exact ⟨op, matStep_ops_mono hn hop, hcov⟩
  · have hpr : p = pr := by simpa using hnew
    subst hpr
    have h0 : st.err.isSome = false := by rw [hn]; rfl
    simp only [matStep, h0, Bool.false_eq_true, if_false] at hne ⊢
    by_cases hskip : (st.prev.any fun q => q.file_hdl == p.file_hdl) = true
    · obtain ⟨q, hqmem, hqhdl⟩ := List.any_eq_true.1 hskip
      have hqe : q.file_hdl = p.file_hdl := by simpa using hqhdl
      obtain ⟨e1, e2, e3⟩ := hshare q hqmem hqe
      obtain ⟨op, hop, hcov⟩ := K q hqmem j (by omega) (by omega)
      refine ⟨op, ?_, hcov⟩
      simp only [hskip, if_true]
      split_ifs <;> simp [List.mem_append, hop]
    · have hskf : (st.prev.any fun q => q.file_hdl == p.file_hdl) = false := by
        simpa using hskip
      simp only [hskf, Bool.false_eq_true, if_false] at hne ⊢
      by_cases hdif0 : dif_of h ≤ 0
      · rw [if_pos hdif0]
        refine ⟨WOp.wzero p.viewbufoffset (p.records_in_viewbuf * h.recordsize), ?_, ?_⟩
        · simp
        · simp only [opCovers]
          omega
      · rw [if_neg hdif0] at hne ⊢
        by_cases hmid : dif_of h < p.records_in_viewbuf
        · rw [if_pos hmid] at hne ⊢
          by_cases hread : freadOk (fs h.file_hdl)
              (h.hdrsize + datarecords_of h * h.recordsize)
              (dif_of h * h.recordsize) = true
          · rw [if_pos hread]
            by_cases hj3 : j < p.viewbufoffset + dif_of h * h.recordsize
            · refine ⟨WOp.wread h.file_hdl (h.hdrsize + datarecords_of h * h.recordsize)
                p.viewbufoffset (dif_of h * h.recordsize), ?_, ?_⟩
              · simp
              · simp only [opCovers]
                omega
            · refine ⟨WOp.wzero (p.viewbufoffset + dif_of h * h.recordsize)
                (p.records_in_viewbuf * h.recordsize - dif_of h * h.recordsize), ?_, ?_⟩
              · simp
              · simp only [opCovers]
                omega
          · rw [if_neg hread] at hne
            simp at hne
        · rw [if_neg hmid] at hne ⊢
          by_cases hread : freadOk (fs h.file_hdl)
              (h.hdrsize + datarecords_of h * h.recordsize)
              (p.records_in_viewbuf * h.recordsize) = true
          · rw [if_pos hread]
            refine ⟨WOp.wread h.file_hdl (h.hdrsize + datarecords_of h * h.recordsize)
              p.viewbufoffset (p.records_in_viewbuf * h.recordsize), ?_, ?_⟩
            · simp
            · simp only [opCovers]
              omega
          · rw [if_neg hread] at hne
            simp at hne

theorem matLoop_covers {fs : ℕ → CFile} :
    ∀ (l : List (EdfHdr × PlanRec)) (st : MatState),
      (matLoop fs st l).err = none →
      (∀ pc ∈ l, pc.2.recordsize = pc.1.recordsize ∧
        pc.2.viewbufsize = pc.2.records_in_viewbuf * pc.2.recordsize) →
      planShareAll (st.prev ++ l.map Prod.snd) →
      (∀ p ∈ st.prev, ∀ j : ℤ, p.viewbufoffset ≤ j →
        j < p.viewbufoffset + p.viewbufsize → ∃ op ∈ st.ops, opCovers op j) →
      ∀ p ∈ (matLoop fs st l).prev, ∀ j : ℤ, p.viewbufoffset ≤ j →
        j < p.viewbufoffset + p.viewbufsize →
        ∃ op ∈ (matLoop fs st l).ops, opCovers op j := by
  intro l
  induction l with
  | nil => intro st _ _ _ K; exact K
  | cons pc rest ih =>
    intro st hok hsz hshare K
    obtain ⟨h1, pr⟩ := pc
    have hrest : (matLoop fs (matStep fs st h1 pr) rest).err = none := hok
    have hst1 : (matStep fs st h1 pr).err = none := matLoop_err_none rest _ hrest
    have hst : st.err = none := matStep_err_none hst1
    have hprmem : pr ∈ st.prev ++ ((h1, pr) :: rest).map Prod.snd := by simp
    have hshstep : ∀ q ∈ st.prev, q.file_hdl = pr.file_hdl →
        q.viewbufoffset = pr.viewbufoffset ∧ q.records_in_viewbuf = pr.records_in_viewbuf ∧
        q.viewbufsize = pr.viewbufsize := by
      intro q hq hqe
      exact hshare q (by simp [hq]) pr hprmem hqe
    have hK1 := matStep_covers hst hst1 (hsz (h1, pr) (by simp)).1
      (hsz (h1, pr) (by simp)).2 hshstep K
    have hshare1 : planShareAll ((matStep fs st h1 pr).prev ++ rest.map Prod.snd) := by
      rw [matStep_prev hst]
      have : st.prev ++ [pr] ++ rest.map Prod.snd
          = st.prev ++ ((h1, pr) :: rest).map Prod.snd := by simp
      rw [this]
      exact hshare
    exact ih (matStep fs st h1 pr) hrest
      (fun pc hpc => hsz pc (by simp [hpc])) hshare1 hK1

/-- Inversion of a successful visible-window pass: the capacity gate did not
fire, the read loop finished without error, and every output of the run is
the corresponding planning/loop result. -/
theorem setup_ok_inversion (g : ℤ → ℤ) (fs : ℕ → CFile) (st : MWState)
    (h : (setup_viewbuf_visible g fs st).err = none) :
    ¬ ((assignOffsets st.pagetime st.signalcomp).2 ≠ 0 ∧
        CEILING64 ≤ (assignOffsets st.pagetime st.signalcomp).2) ∧
    (matLoop fs ⟨[], [], [], none⟩ (assignOffsets st.pagetime st.signalcomp).1).err = none ∧
    (setup_viewbuf_visible g fs st).plan
      = ((assignOffsets st.pagetime st.signalcomp).1).map Prod.snd ∧
    (setup_viewbuf_visible g fs st).ops
      = (matLoop fs ⟨[], [], [], none⟩ (assignOffsets st.pagetime st.signalcomp).1).ops ∧
    (setup_viewbuf_visible g fs st).stops
      = (matLoop fs ⟨[], [], [], none⟩ (assignOffsets st.pagetime st.signalcomp).1).stops ∧
    (setup_viewbuf_visible g fs st).st.signalcomp = st.signalcomp ∧
    (setup_viewbuf_visible g fs st).st.pagetime = st.pagetime ∧
    (setup_viewbuf_visible g fs st).st.viewbuf
      = (if (assignOffsets st.pagetime st.signalcomp).2 ≠ 0 then
          some (applyWOps fs g (matLoop fs ⟨[], [], [], none⟩
            (assignOffsets st.pagetime st.signalcomp).1).ops)
         else none) := by
  by_cases hc : ((assignOffsets st.pagetime st.signalcomp).2 ≠ 0 ∧
      CEILING64 ≤ (assignOffsets st.pagetime st.signalcomp).2)
  · exfalso
    simp only [setup_viewbuf_visible] at h
    rw [if_pos hc] at h
    simp at h
  · by_cases hio : (matLoop fs ⟨[], [], [], none⟩
        (assignOffsets st.pagetime st.signalcomp).1).err.isSome = true
    · exfalso
      simp only [setup_viewbuf_visible] at h
      rw [if_neg hc, if_pos hio] at h
      have hmn : (matLoop fs ⟨[], [], [], none⟩
          (assignOffsets st.pagetime st.signalcomp).1).err = none := h
      rw [hmn] at hio
      simp at hio
    · simp only [setup_viewbuf_visible]
      rw [if_neg hc, if_neg hio]
      exact ⟨hc, Option.not_isSome_iff_eq_none.1 (by simpa using hio),
        rfl, rfl, rfl, rfl, rfl, rfl⟩

/-- Derived from the planning invariants: every planned record's record size
is its header's, and its buffer size is `records_in_viewbuf * recordsize`
(under header coherence, which makes copied values agree with own values). -/
theorem planned_sizes (pt : ℤ) (cs : List SignalComp) (Hmap : ℕ → EdfHdr)
    (hcoh : hdrCoherent Hmap cs) :
    ∀ pc ∈ (assignOffsets pt cs).1,
      pc.2.recordsize = pc.1.recordsize ∧
      pc.2.viewbufsize = pc.2.records_in_viewbuf * pc.2.recordsize := by
  intro pc hpc
  have hal : pairAligned pc :=
    assignOffsetsAux_aligned pt cs [] 0 (by simp) pc hpc
  have hgood : recordsGood pt Hmap pc :=
    assignOffsetsAux_recordsGood pt Hmap cs [] 0 hcoh (by simp) pc hpc
  obtain ⟨hg1, hg2, hg3⟩ := hgood
  refine ⟨hal.2, ?_⟩
  rw [hg3, hg2, hal.2, hg1]

/-! ### Claim C7: one shared region and one read per shared recording -/

/-- Claim C7: in a successful materialization, any two plan records on the
same open file handle carry the same buffer offset, record count and buffer
size (they share one materialized region), and exactly one read is issued
against that file handle (the later composition's read is skipped).
`Hmap` witnesses that compositions on one open file share one header, as in
the surrounding program. -/
theorem shared_recording_one_region_one_read (garbage : ℤ → ℤ) (fs : ℕ → CFile)
    (st : MWState) (Hmap : ℕ → EdfHdr) (hd : ℕ)
    (hcoh : hdrCoherent Hmap st.signalcomp)
    (hex : st.signalcomp.any (fun c => c.edfhdr.file_hdl == hd) = true)
    (hdif : 0 < dif_of (Hmap hd))
    (hok : (setup_viewbuf_visible garbage fs st).err = none) :
    (∀ p ∈ (setup_viewbuf_visible garbage fs st).plan,
      ∀ q ∈ (setup_viewbuf_visible garbage fs st).plan,
      p.file_hdl = q.file_hdl →
        p.viewbufoffset = q.viewbufoffset ∧
        p.records_in_viewbuf = q.records_in_viewbuf ∧
        p.viewbufsize = q.viewbufsize) ∧
    readCountFor hd (setup_viewbuf_visible garbage fs st).ops = 1 := by
  obtain ⟨hcap, hml, hplan, hops, _, _, _, _⟩ := setup_ok_inversion garbage fs st hok
  constructor
  · rw [hplan]
    refine assignOffsetsAux_shareAll st.pagetime st.signalcomp [] 0 ?_
    intro p hp
    simp at hp
  · rw [hops]
    have halign : ∀ pc ∈ (assignOffsets st.pagetime st.signalcomp).1,
        pairAligned pc ∧ pc.1 = Hmap pc.2.file_hdl := by
      intro pc hpc
      refine ⟨assignOffsetsAux_aligned st.pagetime st.signalcomp [] 0 (by simp) pc hpc, ?_⟩
      exact (assignOffsetsAux_recordsGood st.pagetime Hmap st.signalcomp [] 0 hcoh
        (by simp) pc hpc).1
    rw [matLoop_readCount Hmap hd _ _ hml halign]
    have hany : ((assignOffsets st.pagetime st.signalcomp).1.any
        (fun pc => pc.2.file_hdl == hd)) = true := by
      have hmapped : ((assignOffsets st.pagetime st.signalcomp).1.map
            (fun pc => pc.2.file_hdl)).any (fun x => x == hd) = true := by
        show ((assignOffsetsAux st.pagetime [] 0 st.signalcomp).1.map
            (fun pc => pc.2.file_hdl)).any (fun x => x == hd) = true
        rw [assignOffsetsAux_handles]
        simpa [List.any_map, Function.comp] using hex
      simpa [List.any_map, Function.comp] using hmapped
    rw [if_pos ⟨by simp, hany, hdif⟩]
    simp [readCountFor]

theorem c7St_hdrCoherent : hdrCoherent (fun _ => c6Hdr) c7St.signalcomp := by
  intro c hc
  have h : c = c6Comp := by
    rcases List.mem_cons.1 hc with h | h
    · exact h
    · simpa using h
  subst h
  rfl

theorem shared_recording_one_region_one_read_witness :
    (hdrCoherent (fun _ => c6Hdr) c7St.signalcomp ∧
      c7St.signalcomp.any (fun c => c.edfhdr.file_hdl == 0) = true ∧
      0 < dif_of c6Hdr ∧ c7Run.err = none) ∧
    readCountFor 0 c7Run.ops = 1 :=
  ⟨⟨c7St_hdrCoherent, by decide, by decide, by decide⟩,
   (shared_recording_one_region_one_read (fun _ => 0) (fun _ => c6File) c7St
      (fun _ => c6Hdr) 0 c7St_hdrCoherent (by decide) (by decide) (by decide)).2⟩

/-! ### Claim C8: stateless materialization is deterministic -/

/-- Claim C8: for a composition set with zero stateful filters,
`setup_viewbuf` is exactly the visible-window pass (the warm-up engine is
skipped), and two consecutive identical materializations produce the same
plan, the same sample bookkeeping, the same write/read operations, and
byte-identical buffer contents on every composition's materialized region —
even though each call allocates a fresh buffer with arbitrary initial
contents (`g1`, `g2` model the two mallocs' garbage).  `Hmap` witnesses
that compositions on one open file share one header. -/
theorem stateless_materialization_deterministic (g1 g2 : ℤ → ℤ) (fs : ℕ → CFile)
    (st : MWState) (Hmap : ℕ → EdfHdr)
    (hstateless : hasStatefulFilters st.signalcomp = false)
    (hcoh : hdrCoherent Hmap st.signalcomp)
    (hok : (setup_viewbuf_visible g1 fs st).err = none) :
    setup_viewbuf_stateless g1 fs st = some (setup_viewbuf_visible g1 fs st) ∧
    (setup_viewbuf_visible g2 fs (setup_viewbuf_visible g1 fs st).st).err = none ∧
    (setup_viewbuf_visible g2 fs (setup_viewbuf_visible g1 fs st).st).plan
      = (setup_viewbuf_visible g1 fs st).plan ∧
    (setup_viewbuf_visible g2 fs (setup_viewbuf_visible g1 fs st).st).stops
      = (setup_viewbuf_visible g1 fs st).stops ∧
    (setup_viewbuf_visible g2 fs (setup_viewbuf_visible g1 fs st).st).ops
      = (setup_viewbuf_visible g1 fs st).ops ∧
    ∀ p ∈ (setup_viewbuf_visible g1 fs st).plan, ∀ j : ℤ,
      p.viewbufoffset ≤ j → j < p.viewbufoffset + p.viewbufsize →
      ((setup_viewbuf_visible g2 fs (setup_viewbuf_visible g1 fs st).st).st.viewbuf.getD
          (fun _ => 0)) j
        = ((setup_viewbuf_visible g1 fs st).st.viewbuf.getD (fun _ => 0)) j := by
  obtain ⟨hcap, hml, hplan, hops, hstops, hsc, hpt, hvb⟩ := setup_ok_inversion g1 fs st hok
  refine ⟨by simp [setup_viewbuf_stateless, hstateless], ?_⟩
  have hAO1 : (setup_viewbuf_visible g1 fs st).st.pagetime = st.pagetime := hpt
  have hAO2 : (setup_viewbuf_visible g1 fs st).st.signalcomp = st.signalcomp := hsc
  have hkey : ∀ g : ℤ → ℤ,
      setup_viewbuf_visible g fs (setup_viewbuf_visible g1 fs st).st
        = { st := { viewbuf := if (assignOffsets st.pagetime st.signalcomp).2 ≠ 0 then
                      some (applyWOps fs g (matLoop fs ⟨[], [], [], none⟩
                        (assignOffsets st.pagetime st.signalcomp).1).ops)
                    else none
                    totalviewbufsize_bytes :=
                      if (assignOffsets st.pagetime st.signalcomp).2 ≠ 0 then
                        (assignOffsets st.pagetime st.signalcomp).2 else 0
                    pagetime := st.pagetime
                    signalcomp := st.signalcomp }
            plan := ((assignOffsets st.pagetime st.signalcomp).1).map Prod.snd
            totalsize := (assignOffsets st.pagetime st.signalcomp).2
            ops := (matLoop fs ⟨[], [], [], none⟩
              (assignOffsets st.pagetime st.signalcomp).1).ops
            stops := (matLoop fs ⟨[], [], [], none⟩
              (assignOffsets st.pagetime st.signalcomp).1).stops
            err := none } := by
    intro g
    set s1 := (setup_viewbuf_visible g1 fs st).st with hs1def
    have hpt1 : s1.pagetime = st.pagetime := hAO1
    have hsc1 : s1.signalcomp = st.signalcomp := hAO2
    simp only [setup_viewbuf_visible, hpt1, hsc1]
    rw [if_neg hcap, if_neg (by simp [hml])]
  have hplan1 : (setup_viewbuf_visible g1 fs st).plan
      = ((assignOffsets st.pagetime st.signalcomp).1).map Prod.snd := hplan
  refine ⟨by rw [hkey g2], by rw [hkey g2, hplan1], by rw [hkey g2, hstops],
    by rw [hkey g2, hops], ?_⟩
  intro p hp j hj1 hj2
  rw [hkey g2, hvb]
  by_cases hts : (assignOffsets st.pagetime st.signalcomp).2 ≠ 0
  · simp only [if_pos hts]
    show applyWOps fs g2 (matLoop fs ⟨[], [], [], none⟩
        (assignOffsets st.pagetime st.signalcomp).1).ops j
      = applyWOps fs g1 (matLoop fs ⟨[], [], [], none⟩
        (assignOffsets st.pagetime st.signalcomp).1).ops j
    refine applyWOps_covered fs _ _ _ j ?_
    have hpmem : p ∈ (matLoop fs ⟨[], [], [], none⟩
        (assignOffsets st.pagetime st.signalcomp).1).prev := by
      rw [matLoop_prev _ _ hml]
      rw [hplan1] at hp
      simpa using hp
    refine matLoop_covers (assignOffsets st.pagetime st.signalcomp).1 ⟨[], [], [], none⟩
      hml (planned_sizes st.pagetime st.signalcomp Hmap hcoh) ?_ ?_ p hpmem j hj1 hj2
    · have := assignOffsetsAux_shareAll st.pagetime st.signalcomp [] 0
        (by intro p0 hp0; simp at hp0)
      simpa using this
    · intro p0 hp0
      simp at hp0
  · simp only [if_neg hts]

theorem stateless_materialization_deterministic_witness :
    (hasStatefulFilters c7St.signalcomp = false ∧
      hdrCoherent (fun _ => c6Hdr) c7St.signalcomp ∧ c7Run.err = none) ∧
    (setup_viewbuf_stateless (fun _ => 0) (fun _ => c6File) c7St = some c7Run ∧
      (setup_viewbuf_visible (fun _ => 1) (fun _ => c6File) c7Run.st).err = none) :=
  ⟨⟨by decide, c7St_hdrCoherent, by decide⟩,
   (fun H => ⟨H.1, H.2.1⟩)
     (stateless_materialization_deterministic (fun _ => 0) (fun _ => 1)
       (fun _ => c6File) c7St (fun _ => c6Hdr) (by decide) c7St_hdrCoherent
       (by decide))⟩

/-! ### Claims C2 and C3: failure semantics of the materializer -/

/-- Claim C2 (counterexample): at the concrete frame `c2Run` (the file is
shorter than the requested window, so `fread` fails), the materializer
reports an I/O error — but the signal-composition set has been cleared
(`remove_all_signals`) and the previously displayed buffer was freed and
replaced, so the previously displayed state is NOT left unchanged, contrary
to the claim. -/
theorem read_failure_claim_counterexample :
    c2Run.err = some VErr.ioerror ∧
    c2Run.st.signalcomp ≠ c2St.signalcomp ∧
    c2Run.st.viewbuf ≠ c2St.viewbuf := by
  refine ⟨by decide, by decide, ?_⟩
  intro h
  have h2 := congrArg (fun o : Option (ℤ → ℤ) => (o.getD (fun _ => 99)) 0) h
  exact absurd h2 (by decide)

/-- Claim C2 (amended): a seek/read failure aborts the current frame and
reports an I/O error to the caller, but it does not leave the previous
display state unchanged: the signal-composition set is removed
(`remove_all_signals`) — the previous frame's buffer having already been
discarded — while the page duration is kept. -/
theorem read_failure_reports_and_clears (garbage : ℤ → ℤ) (fs : ℕ → CFile)
    (st : MWState)
    (h : (setup_viewbuf_visible garbage fs st).err = some VErr.ioerror) :
    (setup_viewbuf_visible garbage fs st).st.signalcomp = [] ∧
    (setup_viewbuf_visible garbage fs st).st.pagetime = st.pagetime := by
  by_cases hc : ((assignOffsets st.pagetime st.signalcomp).2 ≠ 0 ∧
      CEILING64 ≤ (assignOffsets st.pagetime st.signalcomp).2)
  · exfalso
    simp only [setup_viewbuf_visible] at h
    rw [if_pos hc] at h
    simp at h
  · by_cases hio : (matLoop fs ⟨[], [], [], none⟩
        (assignOffsets st.pagetime st.signalcomp).1).err.isSome = true
    · simp only [setup_viewbuf_visible] at h ⊢
      rw [if_neg hc, if_pos hio] at h ⊢
      exact ⟨rfl, rfl⟩
    · exfalso
      simp only [setup_viewbuf_visible] at h
      rw [if_neg hc, if_neg hio] at h
      simp at h

theorem read_failure_reports_and_clears_witness :
    c2Run.err = some VErr.ioerror ∧
    (c2Run.st.signalcomp = [] ∧ c2Run.st.pagetime = c2St.pagetime) :=
  ⟨by decide,
   read_failure_reports_and_clears (fun _ => 0) (fun _ => c2File) c2St (by decide)⟩

/-- Claim C3 (counterexample): at the concrete over-budget frame `c3Run`
(2.01·10^11 requested bytes ≥ `0xffffffff · 32`), the operation reports to
the user on the very first attempt — no clamp-and-retry happens inside the
call (it performs no I/O at all), even though the same frame clamped to a
1-second page would be far under budget — and it removes all signal
compositions instead of leaving the view unchanged. -/
theorem capacity_claim_counterexample :
    c3Run.err = some VErr.capacity ∧
    c3Run.ops = [] ∧
    (assignOffsets TIME_FIXP_SCALING c3St.signalcomp).2 < CEILING64 ∧
    c3Run.st.signalcomp ≠ c3St.signalcomp := by
  refine ⟨by decide, by decide, by decide, by decide⟩

/-- Claim C3 (amended): when the total requested size reaches the platform
ceiling, `setup_viewbuf` reports the capacity error immediately — there is
no retry: the call performs no write or read operation — removes all signal
compositions, discards the buffer, and clamps the stored page duration to
at most 1 second (10^7 ticks) so that only subsequent navigation uses the
smaller page. -/
theorem capacity_overflow_reports_without_retry (garbage : ℤ → ℤ)
    (fs : ℕ → CFile) (st : MWState)
    (hc : CEILING64 ≤ (assignOffsets st.pagetime st.signalcomp).2) :
    (setup_viewbuf_visible garbage fs st).err = some VErr.capacity ∧
    (setup_viewbuf_visible garbage fs st).ops = [] ∧
    (setup_viewbuf_visible garbage fs st).st.signalcomp = [] ∧
    (setup_viewbuf_visible garbage fs st).st.viewbuf = none ∧
    (setup_viewbuf_visible garbage fs st).st.pagetime
      = min st.pagetime TIME_FIXP_SCALING := by
  have hne : (assignOffsets st.pagetime st.signalcomp).2 ≠ 0 := by
    intro h0
    rw [h0] at hc
    norm_num [CEILING64] at hc
  simp only [setup_viewbuf_visible]
  rw [if_pos ⟨hne, hc⟩]
  refine ⟨rfl, rfl, rfl, rfl, ?_⟩
  show (if TIME_FIXP_SCALING < st.pagetime then TIME_FIXP_SCALING else st.pagetime)
      = min st.pagetime TIME_FIXP_SCALING
  rw [min_def]
  split_ifs <;> omega

/-- Claim C6: for a (non-shared) composition whose view window extends past
the recording's last record (`0 < dif < records_in_viewbuf`), the
materializer reports no error when the in-range read succeeds, zero-fills
exactly the buffer bytes beyond the last available record (positions from
`viewbufoffset + dif·recordsize` up to the end of the region), fills the
in-range head from the file, and sets `sample_stop` to
`dif·smp_per_record − sample_timeoffset + sample_start` — the last valid
in-range sample, not the requested page length. -/
theorem past_end_zero_fill_and_sample_stop
    (fs : ℕ → CFile) (h : EdfHdr) (pr : PlanRec) (g : ℤ → ℤ)
    (hdif0 : 0 < dif_of h)
    (hdif1 : dif_of h < pr.records_in_viewbuf)
    (hread : freadOk (fs h.file_hdl) (h.hdrsize + datarecords_of h * h.recordsize)
      (dif_of h * h.recordsize) = true) :
    (matStep fs ⟨[], [], [], none⟩ h pr).err = none ∧
    (matStep fs ⟨[], [], [], none⟩ h pr).stops
      = [dif_of h * h.smp_per_record - pr.sample_timeoffset + pr.sample_start] ∧
    (∀ j : ℤ, pr.viewbufoffset + dif_of h * h.recordsize ≤ j →
        j < pr.viewbufoffset + pr.records_in_viewbuf * h.recordsize →
        applyWOps fs g (matStep fs ⟨[], [], [], none⟩ h pr).ops j = 0) ∧
    (∀ j : ℤ, pr.viewbufoffset ≤ j → j < pr.viewbufoffset + dif_of h * h.recordsize →
        applyWOps fs g (matStep fs ⟨[], [], [], none⟩ h pr).ops j
          = (fs h.file_hdl).bytes (h.hdrsize + datarecords_of h * h.recordsize
              + (j - pr.viewbufoffset))) := by
  have hkey : (matStep fs ⟨[], [], [], none⟩ h pr).ops
        = [WOp.wzero (pr.viewbufoffset + dif_of h * h.recordsize)
             (pr.records_in_viewbuf * h.recordsize - dif_of h * h.recordsize),
           WOp.wread h.file_hdl (h.hdrsize + datarecords_of h * h.recordsize)
             pr.viewbufoffset (dif_of h * h.recordsize)] ∧
      (matStep fs ⟨[], [], [], none⟩ h pr).stops
        = [dif_of h * h.smp_per_record - pr.sample_timeoffset + pr.sample_start] ∧
      (matStep fs ⟨[], [], [], none⟩ h pr).err = none := by
    simp only [matStep, List.any_nil, Option.isSome_none, Bool.false_eq_true, if_false,
      if_neg (not_le.2 hdif0), if_pos hdif1, hread, if_true]
    simp
  obtain ⟨hops, hstops, herr⟩ := hkey
  refine ⟨herr, hstops, ?_, ?_⟩
  · intro j hj1 hj2
    rw [hops]
    simp only [applyWOps, applyWOp]
    rw [if_neg (by omega :
        ¬(pr.viewbufoffset ≤ j ∧ j < pr.viewbufoffset + dif_of h * h.recordsize))]
    rw [if_pos (by constructor <;> omega)]
  · intro j hj1 hj2
    rw [hops]
    simp only [applyWOps, applyWOp]
    rw [if_pos ⟨hj1, hj2⟩]

theorem past_end_zero_fill_and_sample_stop_witness :
    (0 < dif_of c6Hdr ∧ dif_of c6Hdr < c6Plan.records_in_viewbuf ∧
      freadOk c6File (c6Hdr.hdrsize + datarecords_of c6Hdr * c6Hdr.recordsize)
        (dif_of c6Hdr * c6Hdr.recordsize) = true) ∧
    (matStep (fun _ => c6File) ⟨[], [], [], none⟩ c6Hdr c6Plan).stops
      = [dif_of c6Hdr * c6Hdr.smp_per_record - c6Plan.sample_timeoffset
          + c6Plan.sample_start] :=
  ⟨⟨by decide, by decide, by decide⟩,
   (past_end_zero_fill_and_sample_stop (fun _ => c6File) c6Hdr c6Plan (fun _ => 0)
      (by decide) (by decide) (by decide)).2.1⟩

theorem capacity_overflow_reports_without_retry_witness :
    CEILING64 ≤ (assignOffsets c3St.pagetime c3St.signalcomp).2 ∧
    (c3Run.err = some VErr.capacity ∧ c3Run.ops = [] ∧
      c3Run.st.signalcomp = [] ∧ c3Run.st.viewbuf = none ∧
      c3Run.st.pagetime = min c3St.pagetime TIME_FIXP_SCALING) :=
  ⟨by decide,
   capacity_overflow_reports_without_retry (fun _ => 0) (fun _ => c2File) c3St (by decide)⟩

end ViewBuf
